import Mathlib

/-!
# Agent terrain generator: the phase scheduler (src/generator.cpp)

A shallow embedding of `Generator` (load, save, reset, tick, runAll,
populateNextStep and the accessors) and proofs about it.

The agent classes and the height grid are only used through their interfaces
(`agents/iagent.h`, the bodies of the agent classes and of `HeightMap` are not
part of the sources), so they are parameters of the development: `AgentOps`
and `GridOps`.
-/

namespace TerrainGen

/-! ## Data model -/

/-- A QString, as its sequence of characters. -/
abbrev QString := List Char

/-- The five agent classes that `Generator::load` can construct. -/
inductive AgentKind where
  | CoastLine
  | Mountain
  | Smooth
  | River
  | Beach
deriving DecidableEq, Repr

/-- A pointer to a HeightMap object, as its address. -/
abbrev GridPtr := Nat

/-- Modelled from the spec: the IAgent interface (agents/iagent.h and the bodies of the
agent classes are missing). `A` is the state of one agent object, `W` the state of the
HeightMap objects, the memory the grid pointers point into. `create k` is `new XAgent()` for
the class `k`; `getValue` is the value already converted to `int`; `spawn` is given the grid
pointer, which the agent keeps in its own state (`m_world`); `run` works on the grid the agent
keeps a pointer to; both may write the grids; `isDead` is a pure predicate. -/
structure AgentOps (A W : Type) where
  create : AgentKind → A
  fromString : A → QString → A
  toString : A → QString
  getValue : A → QString → Int
  copy : A → A
  spawn : A → GridPtr → W → A × W
  run : A → W → A × W
  isDead : A → Bool

/-- Modelled from the spec: the operations of HeightMap that the generator calls through its
grid pointer (their bodies are missing): reset, smoothAll, computeNormals, setComputeNormals,
getSize. -/
structure GridOps (W : Type) where
  reset : GridPtr → W → W
  smoothAll : GridPtr → W → W
  computeNormals : GridPtr → W → W
  setComputeNormals : Bool → GridPtr → W → W
  getSize : GridPtr → W → Int

/-- The calls the generator makes to its collaborators (agents, grid, finish callback),
in the order they are made. `copy t` records the template, `spawn a` and `run a` the agent
state the call was made on. -/
inductive Event (A : Type) where
  | copy (t : A)
  | spawn (a : A)
  | run (a : A)
  | finish
  | smoothAll
  | computeNormals
  | setComputeNormals (b : Bool)
  | gridReset

/-- The members of `Generator`, and the memory around it. `m_heightmap = none` is the null
pointer, `some p` the pointer `p`. `m_tickCount` is a 32-bit `int`, kept in range by
`wrapInt32`. `m_nextPhase` is an `int` in the source; it starts at 0 and is only incremented
while it is below the number of phases, and is a natural number here. `world` is not a member
of the class: it is the state of the HeightMap objects, which the generator reaches through
`m_heightmap` and every live agent through the pointer it was spawned with. `m_onFinish` is not
stored: each invocation is recorded in `calls`, the trace of calls made to the collaborators,
which is not a member of the class either. -/
structure Generator (A W : Type) where
  m_heightmap : Option GridPtr
  m_phaseAgents : List (List A)
  m_isRunning : Bool
  m_hasStarted : Bool
  m_nextPhase : Nat
  m_tickCount : Int
  m_agents : List A
  world : W
  calls : List (Event A)

variable {A W : Type}

/-- The value of a 32-bit `int` holding `x` modulo 2^32 (two's complement). -/
def wrapInt32 (x : Int) : Int := (x + 2147483648) % 4294967296 - 2147483648

/-- Is the event an invocation of the finish callback. -/
def Event.isFinish : Event A → Bool
  | Event.finish => true
  | _ => false

/-- Is the event a call of smoothAll. -/
def Event.isSmoothAll : Event A → Bool
  | Event.smoothAll => true
  | _ => false

/-- Is the event a call of computeNormals. -/
def Event.isComputeNormals : Event A → Bool
  | Event.computeNormals => true
  | _ => false

/-- Is the event a call of spawn. -/
def Event.isSpawn : Event A → Bool
  | Event.spawn _ => true
  | _ => false

/-- Is the event a call of run. -/
def Event.isRun : Event A → Bool
  | Event.run _ => true
  | _ => false

/-- Is the event a call on the height grid. -/
def Event.isGrid : Event A → Bool
  | Event.smoothAll => true
  | Event.computeNormals => true
  | Event.setComputeNormals _ => true
  | Event.gridReset => true
  | _ => false

/-! ## Generator: construction, accessors, reset -/

/-- The state built by `Generator::Generator()`, the HeightMap objects being in state `w`. -/
def Generator.new (w : W) : Generator A W :=
  { m_heightmap := none, m_phaseAgents := [], m_isRunning := false, m_hasStarted := false,
    m_nextPhase := 0, m_tickCount := 0, m_agents := [], world := w, calls := [] }

/-- The function `Generator::setHeightMap`. -/
def setHeightMap (h : Option GridPtr) (g : Generator A W) : Generator A W :=
  { g with m_heightmap := h }

/-- The function `Generator::isStarted`. -/
def isStarted (g : Generator A W) : Bool := g.m_hasStarted

/-- The function `Generator::isOver`. -/
def isOver (g : Generator A W) : Bool := g.m_hasStarted && !g.m_isRunning

/-- The function `Generator::getPhasesCount`. -/
def getPhasesCount (g : Generator A W) : Int := (g.m_phaseAgents.length : Int)

/-- The function `Generator::getCurrentPhase`. -/
def getCurrentPhase (g : Generator A W) : Int := (g.m_nextPhase : Int) - 1

/-- The function `Generator::getTickCount`. -/
def getTickCount (g : Generator A W) : Int := g.m_tickCount

/-- The function `Generator::reset`. -/
def reset (gops : GridOps W) (g : Generator A W) : Generator A W :=
  { g with
    m_isRunning := false
    m_hasStarted := false
    m_nextPhase := 0
    m_tickCount := 0
    m_agents := []
    world := match g.m_heightmap with
      | some p => gops.reset p g.world
      | none => g.world
    calls := match g.m_heightmap with
      | some _ => g.calls ++ [Event.gridReset]
      | none => g.calls }

/-! ## Generator: populateNextStep, tick, runAll -/

/-- The body of the inner loop of `populateNextStep`:
`m_agents.push_back(templateAgent->copy()); m_agents.back()->spawn(m_heightmap);`.
Modelled from the spec: spawning on a null grid pointer is a precondition violation, a
fault (`none`). -/
def spawnOne (ops : AgentOps A W) (t : A) (g : Generator A W) : Option (Generator A W) :=
  match g.m_heightmap with
  | none => none
  | some p =>
    let c := ops.copy t
    let r := ops.spawn c p g.world
    some { g with
      m_agents := g.m_agents ++ [r.1]
      world := r.2
      calls := g.calls ++ [Event.copy t, Event.spawn c] }

/-- The inner loop `for (int j = 0; j < count; ++j)`, given the number of iterations left. -/
def spawnCount (ops : AgentOps A W) (t : A) : Nat → Generator A W → Option (Generator A W)
  | 0, g => some g
  | n + 1, g => (spawnOne ops t g).bind (spawnCount ops t n)

/-- The outer loop of `populateNextStep` over the templates of the phase still to visit. -/
def spawnPhase (ops : AgentOps A W) : List A → Generator A W → Option (Generator A W)
  | [], g => some g
  | t :: ts, g =>
    (spawnCount ops t (ops.getValue t "count".data).toNat g).bind (spawnPhase ops ts)

/-- The function `Generator::populateNextStep`. -/
def populateNextStep (ops : AgentOps A W) (g : Generator A W) : Option (Generator A W) :=
  let g1 := { g with m_agents := [] }
  if h : g1.m_nextPhase < g1.m_phaseAgents.length then
    (spawnPhase ops (g1.m_phaseAgents.get ⟨g1.m_nextPhase, h⟩) g1).map
      (fun g2 => { g2 with m_nextPhase := g2.m_nextPhase + 1 })
  else some g1

/-- The agent loop of `tick` (lines 129-137). `kept` is the part of `m_agents` before the
iterator, the second list the part from the iterator on; `erase` drops the head of the second
list, `++it` moves it to `kept`. -/
def runLoop (ops : AgentOps A W) :
    List A → List A → W → List (Event A) → List A × W × List (Event A)
  | kept, [], w, tr => (kept, w, tr)
  | kept, a :: rest, w, tr =>
    let r := ops.run a w
    if ops.isDead r.1 then runLoop ops kept rest r.2 (tr ++ [Event.run a])
    else runLoop ops (kept ++ [r.1]) rest r.2 (tr ++ [Event.run a])

/-- Lines 118-128 of `tick`: the started flag and the branch taken when no agent is live.
Calling `smoothAll` through a null grid pointer is a fault (`none`). -/
def tickHead (ops : AgentOps A W) (gops : GridOps W) (g : Generator A W) :
    Option (Generator A W) :=
  let g1 := { g with m_hasStarted := true }
  if g1.m_agents.length = 0 then
    if g1.m_nextPhase < g1.m_phaseAgents.length then
      populateNextStep ops g1
    else
      match g1.m_heightmap with
      | none => none
      | some p =>
        some { g1 with
          m_isRunning := false
          world := gops.computeNormals p (gops.smoothAll p g1.world)
          calls := g1.calls ++ [Event.finish, Event.smoothAll, Event.computeNormals] }
  else some g1

/-- Lines 129-138 of `tick`: the agent loop and the tick counter. The loop does not read
`m_heightmap`: every agent runs on the grid it keeps a pointer to. -/
def tickTail (ops : AgentOps A W) (g : Generator A W) : Generator A W :=
  let r := runLoop ops [] g.m_agents g.world g.calls
  { g with
    m_agents := r.1
    world := r.2.1
    calls := r.2.2
    m_tickCount := wrapInt32 (g.m_tickCount + 1) }

/-- The function `Generator::tick`. -/
def tick (ops : AgentOps A W) (gops : GridOps W) (g : Generator A W) :
    Option (Generator A W) :=
  (tickHead ops gops g).map (tickTail ops)

/-- The loop `while (m_isRunning) tick();` of `runAll`, with a bound on the number of ticks;
`none` when a tick faults or when the loop is still running after `fuel` ticks. -/
def runAllLoop (ops : AgentOps A W) (gops : GridOps W) :
    Nat → Generator A W → Option (Generator A W)
  | 0, g => if g.m_isRunning then none else some g
  | n + 1, g =>
    if g.m_isRunning then (tick ops gops g).bind (runAllLoop ops gops n) else some g

/-- The function `Generator::runAll`, with a bound on the number of ticks of its loop. -/
def runAll (ops : AgentOps A W) (gops : GridOps W) (fuel : Nat) (g : Generator A W) :
    Option (Generator A W) :=
  match g.m_heightmap with
  | none => none
  | some p =>
    let g1 := { g with
      world := gops.setComputeNormals false p g.world
      m_isRunning := true
      calls := g.calls ++ [Event.setComputeNormals false] }
    match runAllLoop ops gops fuel g1 with
    | none => none
    | some g2 =>
      match g2.m_heightmap with
      | none => none
      | some p2 =>
        some { g2 with
          world := gops.computeNormals p2
            (gops.smoothAll p2 (gops.setComputeNormals true p2 g2.world))
          calls := g2.calls ++
            [Event.setComputeNormals true, Event.smoothAll, Event.computeNormals] }

/-- The state after `n` successive calls of `tick`. -/
def ticks (ops : AgentOps A W) (gops : GridOps W) :
    Nat → Generator A W → Option (Generator A W)
  | 0, g => some g
  | n + 1, g => (tick ops gops g).bind (ticks ops gops n)

/-- Does a tick from this state take the finish branch (lines 122-127): no agent is live and
no phase is left. -/
def atFinish (g : Generator A W) : Bool :=
  g.m_agents.isEmpty && !decide (g.m_nextPhase < g.m_phaseAgents.length)

/-- Does a tick from this state populate the next phase (line 121): no agent is live and a
phase is left. -/
def atPopulate (g : Generator A W) : Bool :=
  g.m_agents.isEmpty && decide (g.m_nextPhase < g.m_phaseAgents.length)

/-- Is the event a call on an agent (copy, spawn or run). -/
def Event.isAgentCall : Event A → Bool
  | Event.copy _ => true
  | Event.spawn _ => true
  | Event.run _ => true
  | _ => false

/-! ## Generator: addAgent, getAgents, getHeightMapSize -/

/-- The loop `while ((unsigned int)phase >= m_phaseAgents.size()) push_back(...)` of
`addAgent`, with a bound on the number of passes; `target` is `(unsigned int)phase`. `none`
when the loop is still running after `fuel` passes. -/
def growLoop (target : Nat) : Nat → List (List A) → Option (List (List A))
  | 0, phases => if target ≥ phases.length then none else some phases
  | fuel + 1, phases =>
    if target ≥ phases.length then growLoop target fuel (phases ++ [[]]) else some phases

/-- The statement `m_phaseAgents[i].push_back(agent)`; an index past the end is a fault
(`none`). -/
def pushAt : Nat → A → List (List A) → Option (List (List A))
  | _, _, [] => none
  | 0, a, p :: ps => some ((p ++ [a]) :: ps)
  | i + 1, a, p :: ps => (pushAt i a ps).map (fun r => p :: r)

/-- The function `Generator::addAgent`. The loop needs at most `(unsigned int)phase + 1`
passes, the bound given to it. With a negative `phase` the index of `m_phaseAgents[phase]` is
out of range: a fault (`none`). -/
def addAgent (phase : Int) (agent : A) (g : Generator A W) : Option (Generator A W) :=
  match growLoop (phase % 4294967296).toNat ((phase % 4294967296).toNat + 1)
      g.m_phaseAgents with
  | none => none
  | some phases =>
    if 0 ≤ phase then
      (pushAt phase.toNat agent phases).map (fun ph => { g with m_phaseAgents := ph })
    else none

/-- The function `Generator::getAgents`; an index that is negative or past the end is a
fault (`none`). -/
def getAgents (phase : Int) (g : Generator A W) : Option (List A) :=
  if 0 ≤ phase then g.m_phaseAgents[phase.toNat]? else none

/-- The function `Generator::getHeightMapSize`: the value of `getSize()` is computed and
dropped (line 177 has no `return`), and line 179 returns 0. -/
def getHeightMapSize (gops : GridOps W) (g : Generator A W) : Int :=
  match g.m_heightmap with
  | some p =>
    let _size := gops.getSize p g.world
    0
  | none => 0

/-! ## Generator: load and save -/

/-- The loop of `QString::split` with `SkipEmptyParts` on a one-character separator:
`cur` is the field being read. -/
def splitAux (sep : Char) : QString → QString → List QString
  | cur, [] => if cur = [] then [] else [cur]
  | cur, c :: cs =>
    if c = sep then
      (if cur = [] then splitAux sep [] cs else cur :: splitAux sep [] cs)
    else splitAux sep (cur ++ [c]) cs

/-- The call `line.split(sep, QString::SkipEmptyParts)`. -/
def splitSkipEmpty (sep : Char) (line : QString) : List QString := splitAux sep [] line

/-- The statement `m_phaseAgents.back().push_back(agent)`; `back()` of an empty vector is a
fault (`none`). -/
def pushBack : List (List A) → A → Option (List (List A))
  | [], _ => none
  | [p], a => some [p ++ [a]]
  | p :: q :: ps, a => (pushBack (q :: ps) a).map (fun r => p :: r)

/-- The three statements of each branch of `load`:
`new XAgent(); agent->fromString(line); m_phaseAgents.back().push_back(agent);`. -/
def loadAgent (ops : AgentOps A W) (k : AgentKind) (line : QString)
    (phases : List (List A)) : Option (List (List A)) :=
  pushBack phases (ops.fromString (ops.create k) line)

/-- The body of the reading loop of `load` (lines 40-67) for one line. `l.at(0)` on an
empty list of fields is out of range: a fault (`none`). -/
def loadLine (ops : AgentOps A W) (phases : List (List A)) (line : QString) :
    Option (List (List A)) :=
  if line = "newPhase".data then some (phases ++ [[]])
  else
    match splitSkipEmpty '!' line with
    | [] => none
    | f :: _ =>
      if f = "CoastLine".data then loadAgent ops AgentKind.CoastLine line phases
      else if f = "Mountain".data then loadAgent ops AgentKind.Mountain line phases
      else if f = "Smooth".data then loadAgent ops AgentKind.Smooth line phases
      else if f = "River".data then loadAgent ops AgentKind.River line phases
      else if f = "Beach".data then loadAgent ops AgentKind.Beach line phases
      else some phases

/-- The reading loop of `load` over the lines still to read. -/
def loadLines (ops : AgentOps A W) : List QString → List (List A) → Option (List (List A))
  | [], phases => some phases
  | line :: rest, phases => (loadLine ops phases line).bind (loadLines ops rest)

/-- The function `Generator::load` on a file that could be opened, given as the sequence of
lines `readLine()` returns. -/
def load (ops : AgentOps A W) (gops : GridOps W) (lines : List QString)
    (g : Generator A W) : Option (Generator A W) :=
  (loadLines ops lines [[]]).map (fun phases => reset gops { g with m_phaseAgents := phases })

/-- The loop `while (!in.atEnd()) in.readLine()` over the text of a file: `cur` is the line
being read. -/
def readAux : QString → QString → List QString
  | cur, [] => if cur = [] then [] else [cur]
  | cur, c :: cs =>
    if c = '\n' then cur :: readAux [] cs else readAux (cur ++ [c]) cs

/-- The lines of a text, as successive `readLine()` calls return them. -/
def readLines (text : QString) : List QString := readAux [] text

/-- The inner loop of `save`: `out << agent->toString() << "\n"` for every template of
the phase. -/
def savePhase (ops : AgentOps A W) : List A → QString → QString
  | [], out => out
  | a :: rest, out => savePhase ops rest (out ++ ops.toString a ++ "\n".data)

/-- The outer loop of `save`, from index `i` on the phases still to write. -/
def saveFrom (ops : AgentOps A W) : Nat → List (List A) → QString → QString
  | _, [], out => out
  | i, p :: ps, out =>
    saveFrom ops (i + 1) ps (savePhase ops p (if i ≠ 0 then out ++ "newPhase\n".data else out))

/-- The text `Generator::save` writes to a file that could be opened. -/
def save (ops : AgentOps A W) (g : Generator A W) : QString :=
  saveFrom ops 0 g.m_phaseAgents []

/-! ## The agent loop, as the specification words it -/

/-- One `run()` on every agent of the list, in list order, the grid threaded through:
the agents after their run, and the grid after the last run. -/
def runEach (ops : AgentOps A W) : List A → W → List A × W
  | [], w => ([], w)
  | a :: rest, w =>
    let r := ops.run a w
    let r2 := runEach ops rest r.2
    (r.1 :: r2.1, r2.2)

/-- The agents left live by one pass of the agent loop over the list: those not dead after
their run, in list order. -/
def survivors (ops : AgentOps A W) (l : List A) (w : W) : List A :=
  (runEach ops l w).1.filter (fun a => !ops.isDead a)

/-- The calls `copy()` then `spawn(grid)` for every template of the list, in list order, the
grid memory threaded through: the spawned clones, and the grids after the last spawn. -/
def spawnEach (ops : AgentOps A W) (p : GridPtr) : List A → W → List A × W
  | [], w => ([], w)
  | t :: ts, w =>
    let r := ops.spawn (ops.copy t) p w
    let r2 := spawnEach ops p ts r.2
    (r.1 :: r2.1, r2.2)

/-- The templates of a phase in declaration order, each repeated `getValue("count")` times
(not at all when the count is zero or negative). -/
def clonesOf (ops : AgentOps A W) (phase : List A) : List A :=
  phase.flatMap (fun t => List.replicate (ops.getValue t "count".data).toNat t)

/-- The calls made to clone and spawn the templates of a list, one after the other. -/
def spawnCalls (ops : AgentOps A W) (ts : List A) : List (Event A) :=
  ts.flatMap (fun t => [Event.copy t, Event.spawn (ops.copy t)])

/-- The agent reports `isDead()` after at most `n` calls of `run()`, whatever the state of
the grid at each of these calls. -/
def DiesWithin (ops : AgentOps A W) : Nat → A → Prop
  | 0, _ => False
  | n + 1, a => ∀ w, ops.isDead (ops.run a w).1 = true ∨ DiesWithin ops n (ops.run a w).1

/-- Every live agent comes from a template of the phase `m_nextPhase - 1` of the phase list
`P`: it carries the same `tag` as one of the templates of that phase. -/
def LiveFromCurrentPhase {T : Type} (tag : A → T) (P : List (List A)) (g : Generator A W) :
    Prop :=
  ∀ a ∈ g.m_agents, ∃ p ts t,
    g.m_nextPhase = p + 1 ∧ P[p]? = some ts ∧ t ∈ ts ∧ tag a = tag t

/-! ## The script format, as the specification words it -/

/-- The agent class named by a script line: its first non-empty '!'-delimited field, matched
case-sensitively against the five type tags; `none` for any other tag and for a line with no
field. -/
def lineKind (line : QString) : Option AgentKind :=
  match splitSkipEmpty '!' line with
  | [] => none
  | f :: _ =>
    if f = "CoastLine".data then some AgentKind.CoastLine
    else if f = "Mountain".data then some AgentKind.Mountain
    else if f = "Smooth".data then some AgentKind.Smooth
    else if f = "River".data then some AgentKind.River
    else if f = "Beach".data then some AgentKind.Beach
    else none

/-- The segments of a script: the runs of lines between the lines that are exactly
`newPhase`. There is one more segment than there are such lines. -/
def segments : List QString → List (List QString)
  | [] => [[]]
  | line :: rest =>
    if line = "newPhase".data then [] :: segments rest
    else
      match segments rest with
      | [] => [[line]]
      | seg :: segs => (line :: seg) :: segs

/-- The templates of one segment: one per line with a recognized type tag, in line order, of
the class the tag names, deserialized from the line. -/
def segmentTemplates (ops : AgentOps A W) (seg : List QString) : List A :=
  seg.filterMap (fun line => (lineKind line).map (fun k => ops.fromString (ops.create k) line))

/-- The phases a script describes: one per segment. -/
def scriptPhases (ops : AgentOps A W) (lines : List QString) : List (List A) :=
  (segments lines).map (segmentTemplates ops)

/-- Does the line have a field 0 to read: it is `newPhase`, or it has a non-empty field. -/
def hasField0 (line : QString) : Bool :=
  decide (line = "newPhase".data) || !(splitSkipEmpty '!' line).isEmpty

/-- The lines of a saved script as the specification words them: the serialized templates of
phase 0 in declaration order, then for every further phase the line `newPhase` followed by its
serialized templates. -/
def saveLines (ops : AgentOps A W) : List (List A) → List QString
  | [] => []
  | p :: ps => p.map ops.toString ++ ps.flatMap (fun q => "newPhase".data :: q.map ops.toString)

/-- The text made of the given lines, each followed by a newline. -/
def unlines (ls : List QString) : QString := ls.flatMap (fun l => l ++ ['\n'])

/-! ## Scheduler state and reachable states -/

/-- The scheduler part of the state: live agents, phase cursor, tick count, the started and
running flags, and the phase templates. -/
def schedulerState (g : Generator A W) :
    List A × Nat × Int × Bool × Bool × List (List A) :=
  (g.m_agents, g.m_nextPhase, g.m_tickCount, g.m_hasStarted, g.m_isRunning, g.m_phaseAgents)

/-- The states reached from a constructed or a reset generator by calls of setHeightMap, reset,
tick, runAll, addAgent and load that complete. -/
inductive Reachable (ops : AgentOps A W) (gops : GridOps W) : Generator A W → Prop where
  | constructed (w : W) : Reachable ops gops (Generator.new w)
  | afterReset (g : Generator A W) : Reachable ops gops (reset gops g)
  | setHeightMap (g : Generator A W) (h : Option GridPtr) :
      Reachable ops gops g → Reachable ops gops (setHeightMap h g)
  | tick (g g' : Generator A W) :
      Reachable ops gops g → tick ops gops g = some g' → Reachable ops gops g'
  | runAll (fuel : Nat) (g g' : Generator A W) :
      Reachable ops gops g → runAll ops gops fuel g = some g' → Reachable ops gops g'
  | addAgent (phase : Int) (a : A) (g g' : Generator A W) :
      Reachable ops gops g → addAgent phase a g = some g' → Reachable ops gops g'
  | load (lines : List QString) (g g' : Generator A W) :
      Reachable ops gops g → load ops gops lines g = some g' → Reachable ops gops g'

/-! ## A small agent class and grid, for concrete runs -/

/-- An agent with a class, a `count` parameter and a number of steps left to live. -/
structure ToyAgent where
  kind : AgentKind
  count : Int
  life : Nat
deriving DecidableEq, Repr

/-- The type tag of an agent class. -/
def kindName : AgentKind → QString
  | AgentKind.CoastLine => "CoastLine".data
  | AgentKind.Mountain => "Mountain".data
  | AgentKind.Smooth => "Smooth".data
  | AgentKind.River => "River".data
  | AgentKind.Beach => "Beach".data

/-- The toy agents: a run uses one step of life and writes the grid (a counter of writes);
the agent is dead when no life is left. -/
def toyOps : AgentOps ToyAgent Nat :=
  { create := fun k => { kind := k, count := 1, life := 2 }
    fromString := fun a _ => a
    toString := fun a => kindName a.kind
    getValue := fun a name => if name = "count".data then a.count else 0
    copy := fun a => a
    spawn := fun a _ w => (a, w)
    run := fun a w => ({ a with life := a.life - 1 }, w + 1)
    isDead := fun a => decide (a.life = 0) }

/-- A toy grid memory: one grid of size 8, the state is the number of writes made by agents;
the other operations leave it alone, reset clears it. -/
def toyGrid : GridOps Nat :=
  { reset := fun _ _ => 0
    smoothAll := fun _ w => w
    computeNormals := fun _ w => w
    setComputeNormals := fun _ _ w => w
    getSize := fun _ _ => 8 }

/-- A generator holding the given phases, with a pointer to the fresh toy grid, not
started. -/
def toyGen (phases : List (List ToyAgent)) : Generator ToyAgent Nat :=
  { m_heightmap := some 0, m_phaseAgents := phases, m_isRunning := false,
    m_hasStarted := false, m_nextPhase := 0, m_tickCount := 0, m_agents := [], world := 0,
    calls := [] }

/-! ## The agent loop of tick -/

theorem runLoop_eq (ops : AgentOps A W) (rest kept : List A) (w : W) (tr : List (Event A)) :
    runLoop ops kept rest w tr =
      (kept ++ (runEach ops rest w).1.filter (fun a => !ops.isDead a),
       (runEach ops rest w).2,
       tr ++ rest.map Event.run) := by
  induction rest generalizing kept w tr with
  | nil => simp [runLoop, runEach]
  | cons a rest ih =>
    simp only [runLoop, runEach]
    by_cases hd : ops.isDead (ops.run a w).1 = true
    · simp [hd, ih]
    · simp [hd, ih]

theorem runEach_length (ops : AgentOps A W) (l : List A) (w : W) :
    (runEach ops l w).1.length = l.length := by
  induction l generalizing w with
  | nil => simp [runEach]
  | cons a rest ih => simp [runEach, ih]

theorem tickTail_eq (ops : AgentOps A W) (g : Generator A W) :
    tickTail ops g = { g with
      m_agents := survivors ops g.m_agents g.world
      world := (runEach ops g.m_agents g.world).2
      calls := g.calls ++ g.m_agents.map Event.run
      m_tickCount := wrapInt32 (g.m_tickCount + 1) } := by
  simp [tickTail, runLoop_eq, survivors]

/-- Claim C1: in every scheduler state the agent loop of tick calls run() once on each live
agent in list order (the calls recorded are exactly one `run` per agent of the list, in that
order, the grid memory handed from one agent to the next), and the live list afterwards is the
order-preserving sub-sequence of the agents after their run that are not dead. -/
theorem tick_agent_loop (ops : AgentOps A W) (g : Generator A W) :
    tickTail ops g = { g with
      m_agents := (runEach ops g.m_agents g.world).1.filter (fun a => !ops.isDead a)
      world := (runEach ops g.m_agents g.world).2
      calls := g.calls ++ g.m_agents.map Event.run
      m_tickCount := wrapInt32 (g.m_tickCount + 1) } ∧
    (runEach ops g.m_agents g.world).1.length = g.m_agents.length ∧
    ((runEach ops g.m_agents g.world).1.filter (fun a => !ops.isDead a)).Sublist
      (runEach ops g.m_agents g.world).1 := by
  refine ⟨?_, ?_, List.filter_sublist _⟩
  · exact tickTail_eq ops g
  · exact runEach_length ops g.m_agents g.world

/-- Witness for C1: two live toy agents, the first with one step left. -/
theorem tick_agent_loop_witness :
    tickTail toyOps
      { toyGen [] with m_agents := [⟨AgentKind.River, 1, 1⟩, ⟨AgentKind.Beach, 1, 2⟩] } =
      { toyGen [] with
        m_agents := [⟨AgentKind.Beach, 1, 1⟩]
        world := 2
        calls := [Event.run ⟨AgentKind.River, 1, 1⟩, Event.run ⟨AgentKind.Beach, 1, 2⟩]
        m_tickCount := 1 } :=
  (tick_agent_loop toyOps
    { toyGen [] with m_agents := [⟨AgentKind.River, 1, 1⟩, ⟨AgentKind.Beach, 1, 2⟩] }).1

/-! ## Populating a phase -/

theorem spawnEach_append (ops : AgentOps A W) (p : GridPtr) (l1 l2 : List A) (w : W) :
    spawnEach ops p (l1 ++ l2) w =
      ((spawnEach ops p l1 w).1 ++ (spawnEach ops p l2 (spawnEach ops p l1 w).2).1,
       (spawnEach ops p l2 (spawnEach ops p l1 w).2).2) := by
  induction l1 generalizing w with
  | nil => simp [spawnEach]
  | cons t ts ih => simp [spawnEach, ih]

theorem spawnEach_length (ops : AgentOps A W) (p : GridPtr) (l : List A) (w : W) :
    (spawnEach ops p l w).1.length = l.length := by
  induction l generalizing w with
  | nil => simp [spawnEach]
  | cons a rest ih => simp [spawnEach, ih]

theorem spawnCalls_append (ops : AgentOps A W) (l1 l2 : List A) :
    spawnCalls ops (l1 ++ l2) = spawnCalls ops l1 ++ spawnCalls ops l2 := by
  simp [spawnCalls]

theorem spawnCalls_countP_isSpawn (ops : AgentOps A W) (l : List A) :
    (spawnCalls ops l).countP Event.isSpawn = l.length := by
  induction l with
  | nil => simp [spawnCalls]
  | cons t ts ih =>
    have h : spawnCalls ops (t :: ts) =
        Event.copy t :: Event.spawn (ops.copy t) :: spawnCalls ops ts := by
      simp [spawnCalls]
    rw [h]
    simp [List.countP_cons, Event.isSpawn, ih]

theorem clonesOf_length (ops : AgentOps A W) (phase : List A) :
    (clonesOf ops phase).length =
      (phase.map (fun t => (ops.getValue t "count".data).toNat)).sum := by
  induction phase with
  | nil => simp [clonesOf]
  | cons t ts ih =>
    have h : clonesOf ops (t :: ts) =
        List.replicate (ops.getValue t "count".data).toNat t ++ clonesOf ops ts := by
      simp [clonesOf]
    rw [h]
    simp [ih]

theorem spawnCount_eq (ops : AgentOps A W) (t : A) (n : Nat) (g : Generator A W)
    (p : GridPtr) (hp : g.m_heightmap = some p) :
    spawnCount ops t n g = some { g with
      m_agents := g.m_agents ++ (spawnEach ops p (List.replicate n t) g.world).1
      world := (spawnEach ops p (List.replicate n t) g.world).2
      calls := g.calls ++ spawnCalls ops (List.replicate n t) } := by
  induction n generalizing g with
  | zero =>
    cases g
    simp_all [spawnCount, spawnEach, spawnCalls]
  | succ n ih =>
    cases g
    simp only at hp
    subst hp
    simp only [spawnCount, spawnOne, Option.some_bind]
    rw [ih _ rfl]
    simp [List.replicate_succ, spawnEach, spawnCalls]

theorem spawnPhase_eq (ops : AgentOps A W) (ts : List A) (g : Generator A W)
    (p : GridPtr) (hp : g.m_heightmap = some p) :
    spawnPhase ops ts g = some { g with
      m_agents := g.m_agents ++ (spawnEach ops p (clonesOf ops ts) g.world).1
      world := (spawnEach ops p (clonesOf ops ts) g.world).2
      calls := g.calls ++ spawnCalls ops (clonesOf ops ts) } := by
  induction ts generalizing g with
  | nil =>
    cases g
    simp_all [spawnPhase, spawnEach, spawnCalls, clonesOf]
  | cons t ts ih =>
    have h : clonesOf ops (t :: ts) =
        List.replicate (ops.getValue t "count".data).toNat t ++ clonesOf ops ts := by
      simp [clonesOf]
    cases g
    simp only at hp
    subst hp
    simp only [spawnPhase]
    rw [spawnCount_eq ops t _ _ _ rfl, Option.some_bind, ih _ rfl, h, spawnEach_append,
      spawnCalls_append]
    simp

theorem tickHead_populate (ops : AgentOps A W) (gops : GridOps W) (g : Generator A W)
    (p : GridPtr) (hA : g.m_agents = []) (hc : g.m_nextPhase < g.m_phaseAgents.length)
    (hp : g.m_heightmap = some p) :
    tickHead ops gops g = some { g with
      m_hasStarted := true
      m_agents := (spawnEach ops p (clonesOf ops g.m_phaseAgents[g.m_nextPhase]) g.world).1
      world := (spawnEach ops p (clonesOf ops g.m_phaseAgents[g.m_nextPhase]) g.world).2
      m_nextPhase := g.m_nextPhase + 1
      calls := g.calls ++ spawnCalls ops (clonesOf ops g.m_phaseAgents[g.m_nextPhase]) } := by
  cases g
  simp only at hA hc hp
  subst hA hp
  simp only [tickHead, populateNextStep, List.length_nil, if_true, hc, dite_true]
  rw [spawnPhase_eq ops _ _ p rfl]
  simp

/-- Claim C2: on a state with no live agent, phase cursor `c` below the number of phases and a
grid assigned, the first part of tick (before the agent loop) makes the live list the clones of
phase `c` only: for each template in declaration order `getValue("count")` clones (none when
the count is zero or negative), each made by copy() and then spawn()ed on the grid; the number
of agents spawned is the sum of these numbers of clones, and the cursor becomes `c + 1`. The
agent loop of the same tick then runs on this state. -/
theorem tick_populates_phase (ops : AgentOps A W) (gops : GridOps W) (g : Generator A W)
    (p : GridPtr) (hA : g.m_agents = []) (hc : g.m_nextPhase < g.m_phaseAgents.length)
    (hp : g.m_heightmap = some p) :
    tickHead ops gops g = some { g with
      m_hasStarted := true
      m_agents := (spawnEach ops p (clonesOf ops g.m_phaseAgents[g.m_nextPhase]) g.world).1
      world := (spawnEach ops p (clonesOf ops g.m_phaseAgents[g.m_nextPhase]) g.world).2
      m_nextPhase := g.m_nextPhase + 1
      calls := g.calls ++ spawnCalls ops (clonesOf ops g.m_phaseAgents[g.m_nextPhase]) } ∧
    (spawnEach ops p (clonesOf ops g.m_phaseAgents[g.m_nextPhase]) g.world).1.length =
      (g.m_phaseAgents[g.m_nextPhase].map
        (fun t => (ops.getValue t "count".data).toNat)).sum ∧
    (spawnCalls ops (clonesOf ops g.m_phaseAgents[g.m_nextPhase])).countP Event.isSpawn =
      (g.m_phaseAgents[g.m_nextPhase].map
        (fun t => (ops.getValue t "count".data).toNat)).sum ∧
    tick ops gops g = (tickHead ops gops g).map (tickTail ops) := by
  refine ⟨tickHead_populate ops gops g p hA hc hp, ?_, ?_, rfl⟩
  · rw [spawnEach_length, clonesOf_length]
  · rw [spawnCalls_countP_isSpawn, clonesOf_length]

/-- Witness for C2: a phase with templates of count 2, 0 and -1 spawns two agents. -/
theorem tick_populates_phase_witness :
    tickHead toyOps toyGrid
      (toyGen [[⟨AgentKind.River, 2, 1⟩, ⟨AgentKind.Beach, 0, 1⟩, ⟨AgentKind.Smooth, -1, 1⟩]]) =
      some { toyGen
          [[⟨AgentKind.River, 2, 1⟩, ⟨AgentKind.Beach, 0, 1⟩, ⟨AgentKind.Smooth, -1, 1⟩]] with
        m_hasStarted := true
        m_agents := [⟨AgentKind.River, 2, 1⟩, ⟨AgentKind.River, 2, 1⟩]
        m_nextPhase := 1
        calls := [Event.copy ⟨AgentKind.River, 2, 1⟩, Event.spawn ⟨AgentKind.River, 2, 1⟩,
          Event.copy ⟨AgentKind.River, 2, 1⟩, Event.spawn ⟨AgentKind.River, 2, 1⟩] } :=
  (tick_populates_phase toyOps toyGrid
    (toyGen [[⟨AgentKind.River, 2, 1⟩, ⟨AgentKind.Beach, 0, 1⟩, ⟨AgentKind.Smooth, -1, 1⟩]])
    0 rfl (by decide) rfl).1

/-! ## The three branches of tick -/

/-- A tick that starts with live agents only runs the agent loop, whatever the grid pointer
of the generator. -/
theorem tick_live (ops : AgentOps A W) (gops : GridOps W) (g : Generator A W)
    (hne : g.m_agents ≠ []) :
    tick ops gops g = some { g with
      m_hasStarted := true
      m_agents := survivors ops g.m_agents g.world
      world := (runEach ops g.m_agents g.world).2
      calls := g.calls ++ g.m_agents.map Event.run
      m_tickCount := wrapInt32 (g.m_tickCount + 1) } := by
  have h1 : tickHead ops gops g = some { g with m_hasStarted := true } := by
    simp [tickHead, hne]
  rw [tick, h1, Option.map_some', tickTail_eq]

/-- A tick that starts with no live agent and phases left populates the next phase and runs
the agent loop on the agents spawned. -/
theorem tick_populate (ops : AgentOps A W) (gops : GridOps W) (g : Generator A W)
    (p : GridPtr) (hp : g.m_heightmap = some p) (hA : g.m_agents = [])
    (hc : g.m_nextPhase < g.m_phaseAgents.length) :
    tick ops gops g = some { g with
      m_hasStarted := true
      m_agents := survivors ops
        (spawnEach ops p (clonesOf ops g.m_phaseAgents[g.m_nextPhase]) g.world).1
        (spawnEach ops p (clonesOf ops g.m_phaseAgents[g.m_nextPhase]) g.world).2
      world := (runEach ops
        (spawnEach ops p (clonesOf ops g.m_phaseAgents[g.m_nextPhase]) g.world).1
        (spawnEach ops p (clonesOf ops g.m_phaseAgents[g.m_nextPhase]) g.world).2).2
      m_nextPhase := g.m_nextPhase + 1
      calls := g.calls ++ spawnCalls ops (clonesOf ops g.m_phaseAgents[g.m_nextPhase]) ++
        (spawnEach ops p (clonesOf ops g.m_phaseAgents[g.m_nextPhase]) g.world).1.map Event.run
      m_tickCount := wrapInt32 (g.m_tickCount + 1) } := by
  rw [tick, (tickHead_populate ops gops g p hA hc hp), Option.map_some', tickTail_eq]

/-- A tick that starts with no live agent and no phase left takes the finish branch. -/
theorem tick_finish (ops : AgentOps A W) (gops : GridOps W) (g : Generator A W)
    (p : GridPtr) (hp : g.m_heightmap = some p) (hA : g.m_agents = [])
    (hc : ¬ g.m_nextPhase < g.m_phaseAgents.length) :
    tick ops gops g = some { g with
      m_hasStarted := true
      m_isRunning := false
      world := gops.computeNormals p (gops.smoothAll p g.world)
      calls := g.calls ++ [Event.finish, Event.smoothAll, Event.computeNormals]
      m_tickCount := wrapInt32 (g.m_tickCount + 1) } := by
  cases g
  simp only at hp hA hc
  subst hp hA
  simp [tick, tickHead, tickTail_eq, hc, survivors, runEach]

theorem spawnCount_nogrid (ops : AgentOps A W) (t : A) (n : Nat) (g g' : Generator A W)
    (hw : g.m_heightmap = none) (h : spawnCount ops t n g = some g') : g' = g ∧ n = 0 := by
  cases n with
  | zero => simp_all [spawnCount]
  | succ n => simp [spawnCount, spawnOne, hw] at h

theorem spawnPhase_nogrid (ops : AgentOps A W) (ts : List A) (g g' : Generator A W)
    (hw : g.m_heightmap = none) (h : spawnPhase ops ts g = some g') :
    g' = g ∧ clonesOf ops ts = [] := by
  induction ts with
  | nil => simp_all [spawnPhase, clonesOf]
  | cons t ts ih =>
    simp only [spawnPhase] at h
    cases h1 : spawnCount ops t (ops.getValue t "count".data).toNat g with
    | none => simp [h1] at h
    | some g1 =>
      obtain ⟨e1, e2⟩ := spawnCount_nogrid ops t _ g g1 hw h1
      subst e1
      rw [h1, Option.some_bind] at h
      obtain ⟨e3, e4⟩ := ih h
      refine ⟨e3, ?_⟩
      have hcl : clonesOf ops (t :: ts) =
          List.replicate (ops.getValue t "count".data).toNat t ++ clonesOf ops ts := by
        simp [clonesOf]
      rw [hcl, e2, e4]
      simp

/-- A tick without a grid pointer that starts with no live agent completes only when a phase
is left and that phase spawns no clone; it then only moves the cursor and the counter. -/
theorem tick_nogrid (ops : AgentOps A W) (gops : GridOps W) (g g' : Generator A W)
    (hw : g.m_heightmap = none) (hA : g.m_agents = []) (h : tick ops gops g = some g') :
    ∃ hc : g.m_nextPhase < g.m_phaseAgents.length,
      clonesOf ops g.m_phaseAgents[g.m_nextPhase] = [] ∧
      g' = { g with
        m_hasStarted := true
        m_nextPhase := g.m_nextPhase + 1
        m_tickCount := wrapInt32 (g.m_tickCount + 1) } := by
  by_cases hc : g.m_nextPhase < g.m_phaseAgents.length
  · refine ⟨hc, ?_⟩
    simp only [tick, tickHead, hA, List.length_nil, if_true, hc, populateNextStep,
      dite_true, List.get_eq_getElem] at h
    cases h1 : spawnPhase ops g.m_phaseAgents[g.m_nextPhase]
        { g with m_hasStarted := true, m_agents := [] } with
    | none => simp [h1] at h
    | some g1 =>
      obtain ⟨e1, e2⟩ := spawnPhase_nogrid ops _
        { g with m_hasStarted := true, m_agents := [] } g1 hw h1
      subst e1
      refine ⟨e2, ?_⟩
      rw [h1] at h
      simp only [Option.map_some', Option.some.injEq] at h
      rw [← h, tickTail_eq]
      simp [survivors, runEach, hA]
  · simp [tick, tickHead, hA, hc, hw] at h

/-- The ways a tick can complete: running live agents, populating a phase (with a grid
pointer, or without one when the phase spawns nothing), or finishing. -/
theorem tick_cases (ops : AgentOps A W) (gops : GridOps W) (g g' : Generator A W)
    (h : tick ops gops g = some g') :
    (g.m_agents ≠ [] ∧
      g' = { g with
        m_hasStarted := true
        m_agents := survivors ops g.m_agents g.world
        world := (runEach ops g.m_agents g.world).2
        calls := g.calls ++ g.m_agents.map Event.run
        m_tickCount := wrapInt32 (g.m_tickCount + 1) }) ∨
    (g.m_agents = [] ∧ ∃ hc : g.m_nextPhase < g.m_phaseAgents.length,
      (∃ p, g.m_heightmap = some p ∧
        g' = { g with
          m_hasStarted := true
          m_agents := survivors ops
            (spawnEach ops p (clonesOf ops g.m_phaseAgents[g.m_nextPhase]) g.world).1
            (spawnEach ops p (clonesOf ops g.m_phaseAgents[g.m_nextPhase]) g.world).2
          world := (runEach ops
            (spawnEach ops p (clonesOf ops g.m_phaseAgents[g.m_nextPhase]) g.world).1
            (spawnEach ops p (clonesOf ops g.m_phaseAgents[g.m_nextPhase]) g.world).2).2
          m_nextPhase := g.m_nextPhase + 1
          calls := g.calls ++ spawnCalls ops (clonesOf ops g.m_phaseAgents[g.m_nextPhase]) ++
            (spawnEach ops p (clonesOf ops g.m_phaseAgents[g.m_nextPhase]) g.world).1.map
              Event.run
          m_tickCount := wrapInt32 (g.m_tickCount + 1) }) ∨
      (g.m_heightmap = none ∧
        g' = { g with
          m_hasStarted := true
          m_nextPhase := g.m_nextPhase + 1
          m_tickCount := wrapInt32 (g.m_tickCount + 1) })) ∨
    (g.m_agents = [] ∧ ¬ g.m_nextPhase < g.m_phaseAgents.length ∧
      ∃ p, g.m_heightmap = some p ∧
      g' = { g with
        m_hasStarted := true
        m_isRunning := false
        world := gops.computeNormals p (gops.smoothAll p g.world)
        calls := g.calls ++ [Event.finish, Event.smoothAll, Event.computeNormals]
        m_tickCount := wrapInt32 (g.m_tickCount + 1) }) := by
  by_cases hA : g.m_agents = []
  · rcases Option.eq_none_or_eq_some g.m_heightmap with hw | ⟨p, hp⟩
    · obtain ⟨hc, _, e⟩ := tick_nogrid ops gops g g' hw hA h
      exact Or.inr (Or.inl ⟨hA, hc, Or.inr ⟨hw, e⟩⟩)
    · by_cases hc : g.m_nextPhase < g.m_phaseAgents.length
      · rw [tick_populate ops gops g p hp hA hc] at h
        exact Or.inr (Or.inl ⟨hA, hc, Or.inl ⟨p, hp, (Option.some.inj h).symm⟩⟩)
      · rw [tick_finish ops gops g p hp hA hc] at h
        exact Or.inr (Or.inr ⟨hA, hc, p, hp, (Option.some.inj h).symm⟩)
  · rw [tick_live ops gops g hA] at h
    exact Or.inl ⟨hA, (Option.some.inj h).symm⟩

theorem mem_survivors (ops : AgentOps A W) (l : List A) (w : W) (a : A)
    (h : a ∈ survivors ops l w) :
    ops.isDead a = false ∧ ∃ b ∈ l, ∃ w', a = (ops.run b w').1 := by
  induction l generalizing w with
  | nil => simp [survivors, runEach] at h
  | cons b rest ih =>
    simp only [survivors, runEach, List.filter_cons] at h
    by_cases hd : ops.isDead (ops.run b w).1 = true
    · simp only [hd, Bool.not_true] at h
      obtain ⟨h1, c, hc, w', e⟩ := ih (ops.run b w).2 h
      exact ⟨h1, c, List.mem_cons_of_mem _ hc, w', e⟩
    · simp only [hd, Bool.not_false, if_true, List.mem_cons] at h
      rcases h with h | h
      · refine ⟨?_, b, List.mem_cons_self _ _, w, h⟩
        rw [h]
        simpa using hd
      · obtain ⟨h1, c, hc, w', e⟩ := ih (ops.run b w).2 h
        exact ⟨h1, c, List.mem_cons_of_mem _ hc, w', e⟩

theorem mem_spawnEach (ops : AgentOps A W) (p : GridPtr) (l : List A) (w : W) (a : A)
    (h : a ∈ (spawnEach ops p l w).1) :
    ∃ t ∈ l, ∃ w', a = (ops.spawn (ops.copy t) p w').1 := by
  induction l generalizing w with
  | nil => simp [spawnEach] at h
  | cons t rest ih =>
    simp only [spawnEach, List.mem_cons] at h
    rcases h with h | h
    · exact ⟨t, List.mem_cons_self _ _, w, h⟩
    · obtain ⟨c, hc, w', e⟩ := ih _ h
      exact ⟨c, List.mem_cons_of_mem _ hc, w', e⟩

theorem mem_clonesOf (ops : AgentOps A W) (phase : List A) (t : A)
    (h : t ∈ clonesOf ops phase) : t ∈ phase := by
  simp only [clonesOf, List.mem_flatMap] at h
  obtain ⟨u, hu, ht⟩ := h
  rw [List.eq_of_mem_replicate ht]
  exact hu

/-! ## What a tick changes -/

theorem wrapInt32_ge (x : Int) : -2147483648 ≤ wrapInt32 x := by
  unfold wrapInt32
  omega

theorem wrapInt32_lt (x : Int) : wrapInt32 x < 2147483648 := by
  unfold wrapInt32
  omega

theorem wrapInt32_le (x : Int) (h : -2147483648 ≤ x) : wrapInt32 x ≤ x := by
  unfold wrapInt32
  omega

theorem wrapInt32_eq (x : Int) (h : -2147483648 ≤ x) (h2 : x < 2147483648) :
    wrapInt32 x = x := by
  unfold wrapInt32
  omega

theorem countP_runs (p : Event A → Bool) (hp : ∀ e : Event A, e.isAgentCall = true → p e = false)
    (l : List A) : (l.map Event.run).countP p = 0 := by
  rw [List.countP_eq_zero]
  intro e he
  obtain ⟨a, _, rfl⟩ := List.mem_map.1 he
  simp [hp (Event.run a) rfl]

theorem countP_spawnCalls (ops : AgentOps A W) (p : Event A → Bool)
    (hp : ∀ e : Event A, e.isAgentCall = true → p e = false) (l : List A) :
    (spawnCalls ops l).countP p = 0 := by
  rw [List.countP_eq_zero]
  intro e he
  simp only [spawnCalls, List.mem_flatMap, List.mem_cons, List.mem_singleton,
    List.not_mem_nil, or_false] at he
  obtain ⟨t, _, rfl | rfl⟩ := he
  · simp [hp (Event.copy t) rfl]
  · simp [hp (Event.spawn (ops.copy t)) rfl]

/-- The members a tick leaves alone or changes in a fixed way. -/
theorem tick_frame (ops : AgentOps A W) (gops : GridOps W) (g g' : Generator A W)
    (h : tick ops gops g = some g') :
    g'.m_phaseAgents = g.m_phaseAgents ∧ g'.m_hasStarted = true ∧
    g'.m_tickCount = wrapInt32 (g.m_tickCount + 1) ∧
    g'.m_isRunning = (g.m_isRunning && !atFinish g) ∧
    g'.m_nextPhase = g.m_nextPhase + (if atPopulate g = true then 1 else 0) ∧
    g'.m_heightmap = g.m_heightmap ∧
    (atFinish g = true → g'.m_agents = []) := by
  rcases tick_cases ops gops g g' h with ⟨hA, e⟩ | ⟨hA, hc, ⟨w, hw, e⟩ | ⟨hw, e⟩⟩ |
    ⟨hA, hc, w, hw, e⟩
  · subst e
    simp [atFinish, atPopulate, hA]
  · subst e
    simp [atFinish, atPopulate, hA, hw, hc]
  · subst e
    simp [atFinish, atPopulate, hA, hw, hc]
  · subst e
    simp [atFinish, atPopulate, hA, hw, hc]

/-- A tick adds to the trace the three calls of the finish branch when it takes it, and
otherwise only calls on agents. -/
theorem tick_countP (ops : AgentOps A W) (gops : GridOps W) (g g' : Generator A W)
    (p : Event A → Bool) (hp : ∀ e : Event A, e.isAgentCall = true → p e = false)
    (h : tick ops gops g = some g') :
    g'.calls.countP p = g.calls.countP p +
      (if atFinish g = true then
        [Event.finish, Event.smoothAll, Event.computeNormals].countP p else 0) := by
  rcases tick_cases ops gops g g' h with ⟨hA, e⟩ | ⟨hA, hc, ⟨w, hw, e⟩ | ⟨hw, e⟩⟩ |
    ⟨hA, hc, w, hw, e⟩
  · subst e
    simp [atFinish, hA, List.countP_append, countP_runs p hp]
  · subst e
    simp [atFinish, hA, hc, List.countP_append, countP_runs p hp, countP_spawnCalls ops p hp]
  · subst e
    simp [atFinish, hA, hc]
  · subst e
    simp [atFinish, hA, hc, List.countP_append]

/-! ## Phases do not overlap -/

theorem tick_liveFromCurrentPhase (ops : AgentOps A W) (gops : GridOps W) {T : Type}
    (tag : A → T) (hcopy : ∀ a, tag (ops.copy a) = tag a)
    (hspawn : ∀ a p w, tag (ops.spawn a p w).1 = tag a)
    (hrun : ∀ a w, tag (ops.run a w).1 = tag a)
    (g g' : Generator A W) (h : tick ops gops g = some g')
    (hinv : LiveFromCurrentPhase tag g.m_phaseAgents g) :
    LiveFromCurrentPhase tag g.m_phaseAgents g' := by
  rcases tick_cases ops gops g g' h with ⟨hA, e⟩ | ⟨hA, hc, ⟨w, hw, e⟩ | ⟨hw, e⟩⟩ |
    ⟨hA, hc, w, hw, e⟩
  · subst e
    intro a ha
    obtain ⟨_, b, hb, w', rfl⟩ := mem_survivors ops _ _ a ha
    obtain ⟨p, ts, t, h1, h2, h3, h4⟩ := hinv b hb
    exact ⟨p, ts, t, h1, h2, h3, by rw [hrun, h4]⟩
  · subst e
    intro a ha
    obtain ⟨_, b, hb, w', rfl⟩ := mem_survivors ops _ _ a ha
    obtain ⟨t, ht, w'', rfl⟩ := mem_spawnEach ops _ _ _ b hb
    refine ⟨g.m_nextPhase, g.m_phaseAgents[g.m_nextPhase], t, rfl,
      List.getElem?_eq_getElem hc, mem_clonesOf ops _ t ht, ?_⟩
    rw [hrun, hspawn, hcopy]
  · subst e
    intro a ha
    simp only [hA, List.not_mem_nil] at ha
  · subst e
    intro a ha
    simp only [hA, List.not_mem_nil] at ha

theorem tick_nextPhase_le (ops : AgentOps A W) (gops : GridOps W) (g g' : Generator A W)
    (h : tick ops gops g = some g') (hle : g.m_nextPhase ≤ g.m_phaseAgents.length) :
    g'.m_nextPhase ≤ g'.m_phaseAgents.length := by
  obtain ⟨h1, _, _, _, h5, _, _⟩ := tick_frame ops gops g g' h
  rw [h1, h5]
  by_cases hp : atPopulate g = true
  · simp only [hp, if_true]
    simp only [atPopulate, Bool.and_eq_true, decide_eq_true_eq] at hp
    omega
  · simp only [hp]
    simpa using hle

theorem ticks_invariant (ops : AgentOps A W) (gops : GridOps W) {T : Type}
    (tag : A → T) (hcopy : ∀ a, tag (ops.copy a) = tag a)
    (hspawn : ∀ a p w, tag (ops.spawn a p w).1 = tag a)
    (hrun : ∀ a w, tag (ops.run a w).1 = tag a)
    (n : Nat) (g g' : Generator A W) (h : ticks ops gops n g = some g')
    (hinv : LiveFromCurrentPhase tag g.m_phaseAgents g)
    (hle : g.m_nextPhase ≤ g.m_phaseAgents.length) :
    g'.m_phaseAgents = g.m_phaseAgents ∧ LiveFromCurrentPhase tag g.m_phaseAgents g' ∧
      g'.m_nextPhase ≤ g.m_phaseAgents.length := by
  induction n generalizing g with
  | zero =>
    simp only [ticks, Option.some.injEq] at h
    subst h
    exact ⟨rfl, hinv, hle⟩
  | succ n ih =>
    simp only [ticks] at h
    cases h1 : tick ops gops g with
    | none => simp [h1] at h
    | some g1 =>
      rw [h1, Option.some_bind] at h
      have hP := (tick_frame ops gops g g1 h1).1
      have i1 := tick_liveFromCurrentPhase ops gops tag hcopy hspawn hrun g g1 h1 hinv
      have i2 := tick_nextPhase_le ops gops g g1 h1 hle
      rw [← hP] at i1
      obtain ⟨r1, r2, r3⟩ := ih g1 h i1 i2
      rw [hP] at r1 r2 r3
      exact ⟨r1, r2, r3⟩

/-- Claim C3: in every state reached from a reset generator by tick() calls, every live agent
is a clone (carries the tag, for any tag that copy, spawn and run preserve) of a template of the
single phase cursor-1; the cursor never passes the number of phases; and a tick moves the
cursor, by one, only when it starts with an empty live list, so the agents of the next phase
are spawned only once all agents of the phase before are dead and reaped. -/
theorem phases_never_overlap (ops : AgentOps A W) (gops : GridOps W) {T : Type}
    (tag : A → T) (hcopy : ∀ a, tag (ops.copy a) = tag a)
    (hspawn : ∀ a p w, tag (ops.spawn a p w).1 = tag a)
    (hrun : ∀ a w, tag (ops.run a w).1 = tag a)
    (g0 g : Generator A W) (n : Nat)
    (h : ticks ops gops n (reset gops g0) = some g) :
    LiveFromCurrentPhase tag g0.m_phaseAgents g ∧
    g.m_nextPhase ≤ g0.m_phaseAgents.length ∧
    (∀ g', tick ops gops g = some g' → g'.m_nextPhase ≠ g.m_nextPhase →
      g.m_agents = [] ∧ g'.m_nextPhase = g.m_nextPhase + 1 ∧
      LiveFromCurrentPhase tag g0.m_phaseAgents g') := by
  have h0 : LiveFromCurrentPhase tag (reset gops g0).m_phaseAgents (reset gops g0) := by
    intro a ha
    simp [reset] at ha
  obtain ⟨r1, r2, r3⟩ := ticks_invariant ops gops tag hcopy hspawn hrun n _ g h h0
    (by simp [reset])
  have hP : (reset gops g0).m_phaseAgents = g0.m_phaseAgents := rfl
  rw [hP] at r1 r2 r3
  refine ⟨r2, r3, ?_⟩
  intro g' ht hne
  obtain ⟨_, _, _, _, h5, _, _⟩ := tick_frame ops gops g g' ht
  have i1 := tick_liveFromCurrentPhase ops gops tag hcopy hspawn hrun g g' ht (by rw [r1]; exact r2)
  rw [r1] at i1
  by_cases hp : atPopulate g = true
  · simp only [hp, if_true] at h5
    simp only [atPopulate, Bool.and_eq_true, List.isEmpty_iff] at hp
    exact ⟨hp.1, h5, i1⟩
  · simp only [hp] at h5
    exact absurd h5 hne

/-- Witness for C3: a script with two single-agent phases (toy agents living two steps). After
two ticks the first agent is dead and the cursor is still 1; the third tick moves it to 2. -/
theorem phases_never_overlap_witness :
    (LiveFromCurrentPhase ToyAgent.kind
        [[⟨AgentKind.CoastLine, 1, 2⟩], [⟨AgentKind.Mountain, 1, 2⟩]]
        { toyGen [[⟨AgentKind.CoastLine, 1, 2⟩], [⟨AgentKind.Mountain, 1, 2⟩]] with
          m_hasStarted := true
          m_nextPhase := 2
          m_tickCount := 3
          world := 3
          m_agents := [⟨AgentKind.Mountain, 1, 1⟩]
          calls := [Event.gridReset,
            Event.copy ⟨AgentKind.CoastLine, 1, 2⟩, Event.spawn ⟨AgentKind.CoastLine, 1, 2⟩,
            Event.run ⟨AgentKind.CoastLine, 1, 2⟩, Event.run ⟨AgentKind.CoastLine, 1, 1⟩,
            Event.copy ⟨AgentKind.Mountain, 1, 2⟩, Event.spawn ⟨AgentKind.Mountain, 1, 2⟩,
            Event.run ⟨AgentKind.Mountain, 1, 2⟩] }) ∧
    (ticks toyOps toyGrid 1
      (reset toyGrid (toyGen [[⟨AgentKind.CoastLine, 1, 2⟩], [⟨AgentKind.Mountain, 1, 2⟩]]))).map
      (fun g => (g.m_nextPhase, g.m_agents)) = some (1, [⟨AgentKind.CoastLine, 1, 1⟩]) ∧
    (ticks toyOps toyGrid 2
      (reset toyGrid (toyGen [[⟨AgentKind.CoastLine, 1, 2⟩], [⟨AgentKind.Mountain, 1, 2⟩]]))).map
      (fun g => (g.m_nextPhase, g.m_agents)) = some (1, []) :=
  ⟨(phases_never_overlap toyOps toyGrid ToyAgent.kind (fun _ => rfl) (fun _ _ _ => rfl)
      (fun _ _ => rfl) (toyGen [[⟨AgentKind.CoastLine, 1, 2⟩], [⟨AgentKind.Mountain, 1, 2⟩]])
      _ 3 rfl).1, by decide, by decide⟩

/-! ## The loop of runAll -/

theorem runAllLoop_stopped (ops : AgentOps A W) (gops : GridOps W) (n : Nat)
    (g : Generator A W) (h : g.m_isRunning = false) : runAllLoop ops gops n g = some g := by
  cases n <;> simp [runAllLoop, h]

theorem runAllLoop_step (ops : AgentOps A W) (gops : GridOps W) (n : Nat)
    (g g1 : Generator A W) (h : g.m_isRunning = true) (ht : tick ops gops g = some g1) :
    runAllLoop ops gops (n + 1) g = runAllLoop ops gops n g1 := by
  simp [runAllLoop, h, ht]

theorem runAllLoop_mono (ops : AgentOps A W) (gops : GridOps W) (n m : Nat)
    (g g' : Generator A W) (h : runAllLoop ops gops n g = some g') :
    runAllLoop ops gops (n + m) g = some g' := by
  induction n generalizing g with
  | zero =>
    by_cases hr : g.m_isRunning = true
    · simp [runAllLoop, hr] at h
    · simp only [Bool.not_eq_true] at hr
      rw [runAllLoop_stopped ops gops _ g hr] at h
      rw [runAllLoop_stopped ops gops _ g hr, h]
  | succ n ih =>
    by_cases hr : g.m_isRunning = true
    · cases ht : tick ops gops g with
      | none => simp [runAllLoop, hr, ht] at h
      | some g1 =>
        rw [runAllLoop_step ops gops n g g1 hr ht] at h
        have e : n + 1 + m = (n + m) + 1 := by omega
        rw [e, runAllLoop_step ops gops (n + m) g g1 hr ht]
        exact ih g1 h
    · simp only [Bool.not_eq_true] at hr
      rw [runAllLoop_stopped ops gops _ g hr] at h
      rw [runAllLoop_stopped ops gops _ g hr, h]

/-- What holds when the loop of runAll, entered running, returns: its last tick took the
finish branch, and that tick is the only one of the loop that did. -/
theorem runAllLoop_result (ops : AgentOps A W) (gops : GridOps W) (n : Nat)
    (g g' : Generator A W) (h : runAllLoop ops gops n g = some g')
    (hr : g.m_isRunning = true) :
    g'.m_isRunning = false ∧ g'.m_hasStarted = true ∧ g'.m_agents = [] ∧
    g'.m_phaseAgents = g.m_phaseAgents ∧
    ¬ g'.m_nextPhase < g'.m_phaseAgents.length ∧
    g'.m_heightmap = g.m_heightmap ∧
    (-2147483648 ≤ g.m_tickCount → g'.m_tickCount ≤ g.m_tickCount + n) ∧
    (∃ pre, g'.calls = pre ++ [Event.finish, Event.smoothAll, Event.computeNormals]) ∧
    (∀ p : Event A → Bool, (∀ e : Event A, e.isAgentCall = true → p e = false) →
      g'.calls.countP p = g.calls.countP p +
        [Event.finish, Event.smoothAll, Event.computeNormals].countP p) := by
  induction n generalizing g with
  | zero => simp [runAllLoop, hr] at h
  | succ n ih =>
    cases ht : tick ops gops g with
    | none => simp [runAllLoop, hr, ht] at h
    | some g1 =>
      rw [runAllLoop_step ops gops n g g1 hr ht] at h
      obtain ⟨f1, f2, f3, f4, f5, f6, f7⟩ := tick_frame ops gops g g1 ht
      by_cases hf : atFinish g = true
      · have hr1 : g1.m_isRunning = false := by simp [f4, hf]
        rw [runAllLoop_stopped ops gops n g1 hr1] at h
        have e := Option.some.inj h
        subst e
        have hf2 := hf
        simp only [atFinish, Bool.and_eq_true, List.isEmpty_iff, Bool.not_eq_true',
          decide_eq_false_iff_not] at hf2
        have hpop : atPopulate g = false := by
          simp [atPopulate, hf2.2]
        refine ⟨hr1, f2, f7 hf, f1, ?_, f6, ?_, ?_, ?_⟩
        · rw [f1, f5, hpop]
          simpa using hf2.2
        · intro hlo
          have := wrapInt32_le (g.m_tickCount + 1) (by omega)
          rw [f3]
          push_cast
          omega
        · rcases tick_cases ops gops g g1 ht with ⟨hA, _⟩ | ⟨_, hc, _⟩ | ⟨_, _, w, _, e⟩
          · exact absurd hf2.1 hA
          · exact absurd hc hf2.2
          · exact ⟨g.calls, by rw [e]⟩
        · intro p hp
          rw [tick_countP ops gops g g1 p hp ht, if_pos hf]
      · have hr1 : g1.m_isRunning = true := by
          simp only [Bool.not_eq_true] at hf
          simp [f4, hf, hr]
        obtain ⟨r1, r2, r3, r4, r5, r6, r7, r8, r9⟩ := ih g1 h hr1
        refine ⟨r1, r2, r3, by rw [r4, f1], r5, by rw [r6, f6], ?_, r8, ?_⟩
        · intro hlo
          have h1 := wrapInt32_le (g.m_tickCount + 1) (by omega)
          have h2 := r7 (by rw [f3]; exact wrapInt32_ge _)
          rw [f3] at h2
          push_cast at h2 ⊢
          omega
        · intro p hp
          rw [r9 p hp, tick_countP ops gops g g1 p hp ht, if_neg hf]
          simp

/-! ## Termination of the loop of runAll -/

theorem survivors_diesWithin (ops : AgentOps A W) (k : Nat) (l : List A) (w : W)
    (h : ∀ b ∈ l, DiesWithin ops (k + 1) b) :
    ∀ a ∈ survivors ops l w, DiesWithin ops k a := by
  intro a ha
  obtain ⟨hd, b, hb, w', rfl⟩ := mem_survivors ops l w a ha
  rcases h b hb w' with h1 | h1
  · rw [hd] at h1
    exact absurd h1 (by simp)
  · exact h1

theorem agents_nil_of_diesWithin_zero (ops : AgentOps A W) (l : List A)
    (h : ∀ a ∈ l, DiesWithin ops 0 a) : l = [] := by
  cases l with
  | nil => rfl
  | cons a rest => exact (h a (List.mem_cons_self _ _)).elim

/-- Draining the live agents: if every live agent dies within `k` runs and the loop returns
within `m` ticks from every state of the same cursor with no live agent, it returns within
`k + m` ticks. -/
theorem runAllLoop_drain (ops : AgentOps A W) (gops : GridOps W) (P : List (List A))
    (c m : Nat)
    (hE : ∀ g : Generator A W, g.m_phaseAgents = P → g.m_nextPhase = c → g.m_agents = [] →
      g.m_isRunning = true → (∃ p, g.m_heightmap = some p) →
      ∃ g', runAllLoop ops gops m g = some g')
    (k : Nat) (g : Generator A W) (hP : g.m_phaseAgents = P) (hc : g.m_nextPhase = c)
    (hk : ∀ a ∈ g.m_agents, DiesWithin ops k a) (hr : g.m_isRunning = true)
    (hw : ∃ p, g.m_heightmap = some p) :
    ∃ g', runAllLoop ops gops (k + m) g = some g' := by
  induction k generalizing g with
  | zero =>
    obtain ⟨g', hg'⟩ := hE g hP hc (agents_nil_of_diesWithin_zero ops _ hk) hr hw
    exact ⟨g', by simpa using hg'⟩
  | succ k ih =>
    by_cases hA : g.m_agents = []
    · obtain ⟨g', hg'⟩ := hE g hP hc hA hr hw
      refine ⟨g', ?_⟩
      have e : k + 1 + m = m + (k + 1) := by omega
      rw [e]
      exact runAllLoop_mono ops gops m (k + 1) g g' hg'
    · have ht := tick_live ops gops g hA
      have e : k + 1 + m = (k + m) + 1 := by omega
      rw [e, runAllLoop_step ops gops (k + m) g _ hr ht]
      exact ih _ hP hc (survivors_diesWithin ops k _ g.world hk) hr hw

/-- If every clone spawned from a template of the phases dies within `L` runs, the loop of
runAll, entered with no live agent and `r` phases left, returns within `r * L + 1` ticks. -/
theorem runAllLoop_terminates (ops : AgentOps A W) (gops : GridOps W) (P : List (List A))
    (L : Nat) (hL : 1 ≤ L)
    (hmortal : ∀ ph ∈ P, ∀ t ∈ ph, ∀ p w, DiesWithin ops L (ops.spawn (ops.copy t) p w).1)
    (r : Nat) (g : Generator A W) (hP : g.m_phaseAgents = P)
    (hc : g.m_nextPhase + r = P.length) (hA : g.m_agents = [])
    (hr : g.m_isRunning = true) (hw : ∃ p, g.m_heightmap = some p) :
    ∃ g', runAllLoop ops gops (r * L + 1) g = some g' := by
  induction r generalizing g with
  | zero =>
    obtain ⟨w, hw⟩ := hw
    have hlt : ¬ g.m_nextPhase < g.m_phaseAgents.length := by
      rw [hP]
      omega
    have ht := tick_finish ops gops g w hw hA hlt
    rw [Nat.zero_mul, Nat.zero_add, runAllLoop_step ops gops 0 g _ hr ht]
    exact ⟨_, runAllLoop_stopped ops gops 0 _ rfl⟩
  | succ r ih =>
    obtain ⟨w, hw⟩ := hw
    have hlt : g.m_nextPhase < g.m_phaseAgents.length := by
      rw [hP]
      omega
    have ht := tick_populate ops gops g w hw hA hlt
    obtain ⟨L', rfl⟩ : ∃ L', L = L' + 1 := ⟨L - 1, by omega⟩
    have e : (r + 1) * (L' + 1) + 1 = (L' + (r * (L' + 1) + 1)) + 1 := by ring
    rw [e, runAllLoop_step ops gops _ g _ hr ht]
    refine runAllLoop_drain ops gops P (g.m_nextPhase + 1) (r * (L' + 1) + 1) ?_ L' _ hP rfl
      ?_ hr ⟨w, hw⟩
    · intro g2 hP2 hc2 hA2 hr2 hw2
      exact ih g2 hP2 (by omega) hA2 hr2 hw2
    · apply survivors_diesWithin
      intro b hb
      obtain ⟨t, ht, w', rfl⟩ := mem_spawnEach ops _ _ _ b hb
      have hmem : g.m_phaseAgents[g.m_nextPhase] ∈ P := by
        rw [← hP]
        exact List.getElem_mem _
      exact hmortal _ hmem t (mem_clonesOf ops _ t ht) w w'

/-! ## runAll -/

/-- The state in which runAll enters its loop, and the one it leaves. -/
theorem runAll_some (ops : AgentOps A W) (gops : GridOps W) (fuel : Nat)
    (g g' : Generator A W) (h : runAll ops gops fuel g = some g') :
    ∃ p gl, g.m_heightmap = some p ∧
      runAllLoop ops gops fuel { g with
        world := gops.setComputeNormals false p g.world
        m_isRunning := true
        calls := g.calls ++ [Event.setComputeNormals false] } = some gl ∧
      g' = { gl with
        world := gops.computeNormals p
          (gops.smoothAll p (gops.setComputeNormals true p gl.world))
        calls := gl.calls ++
          [Event.setComputeNormals true, Event.smoothAll, Event.computeNormals] } := by
  rcases Option.eq_none_or_eq_some g.m_heightmap with hw | ⟨p, hp⟩
  · simp [runAll, hw] at h
  · cases g
    simp only at hp
    subst hp
    simp only [runAll] at h
    split at h
    · simp at h
    · rename_i gl hl
      have hs : gl.m_heightmap = some p :=
        (runAllLoop_result ops gops fuel _ gl hl rfl).2.2.2.2.2.1
      simp only [hs, Option.some.injEq] at h
      refine ⟨p, gl, rfl, hl, ?_⟩
      rw [← h, hs]

theorem runAll_of_loop (ops : AgentOps A W) (gops : GridOps W) (fuel : Nat)
    (g gl : Generator A W) (p : GridPtr) (hp : g.m_heightmap = some p)
    (hl : runAllLoop ops gops fuel { g with
        world := gops.setComputeNormals false p g.world
        m_isRunning := true
        calls := g.calls ++ [Event.setComputeNormals false] } = some gl) :
    ∃ g', runAll ops gops fuel g = some g' := by
  cases g
  simp only at hp
  subst hp
  have hs : gl.m_heightmap = some p :=
    (runAllLoop_result ops gops fuel _ gl hl rfl).2.2.2.2.2.1
  simp only [runAll, hl, hs]
  exact ⟨_, rfl⟩

/-- What one returning call of runAll does: the loop ends with the one tick that takes the
finish branch, and the calls after the loop follow. -/
theorem runAll_result (ops : AgentOps A W) (gops : GridOps W) (fuel : Nat)
    (g g' : Generator A W) (h : runAll ops gops fuel g = some g') :
    g'.m_isRunning = false ∧ g'.m_hasStarted = true ∧ g'.m_agents = [] ∧
    g'.m_phaseAgents = g.m_phaseAgents ∧
    ¬ g'.m_nextPhase < g'.m_phaseAgents.length ∧
    (-2147483648 ≤ g.m_tickCount → g'.m_tickCount ≤ g.m_tickCount + fuel) ∧
    (∃ pre, g'.calls = pre ++ [Event.finish, Event.smoothAll, Event.computeNormals,
      Event.setComputeNormals true, Event.smoothAll, Event.computeNormals]) ∧
    (∀ p : Event A → Bool, (∀ e : Event A, e.isAgentCall = true → p e = false) →
      g'.calls.countP p = g.calls.countP p +
        [Event.setComputeNormals false, Event.finish, Event.smoothAll, Event.computeNormals,
          Event.setComputeNormals true, Event.smoothAll, Event.computeNormals].countP p) := by
  obtain ⟨p, gl, hp, hl, e⟩ := runAll_some ops gops fuel g g' h
  obtain ⟨r1, r2, r3, r4, r5, _, r7, ⟨pre, r8⟩, r9⟩ := runAllLoop_result ops gops fuel _ gl hl rfl
  subst e
  refine ⟨r1, r2, r3, r4, r5, r7, ⟨pre, by simp [r8]⟩, ?_⟩
  intro q hq
  simp only [List.countP_append, r9 q hq, List.countP_cons, List.countP_nil]
  omega

/-! ## The finish callback -/

/-- Claim C4, counterexample: after a runAll() that returned, one more tick() before any
reset() invokes the finish callback a second time. -/
theorem finish_callback_invoked_twice :
    ∃ g1 g2, runAll toyOps toyGrid 3 (reset toyGrid (toyGen [[⟨AgentKind.CoastLine, 1, 2⟩]])) =
        some g1 ∧
      tick toyOps toyGrid g1 = some g2 ∧
      ¬ (g2.calls.countP Event.isFinish ≤ 1) :=
  ⟨_, _, rfl, rfl, by decide⟩

/-- Claim C4, as amended: a tick invokes the finish callback exactly once when it starts with no
live agent and no phase left, and not at all otherwise; such a state stays one after the tick,
so every further tick invokes the callback again; and a call of runAll that returns invokes it
exactly once. -/
theorem finish_callback_per_tick (ops : AgentOps A W) (gops : GridOps W) :
    (∀ g g' : Generator A W, tick ops gops g = some g' →
      g'.calls.countP Event.isFinish =
        g.calls.countP Event.isFinish + (if atFinish g = true then 1 else 0)) ∧
    (∀ (g : Generator A W) (p : GridPtr), g.m_heightmap = some p → atFinish g = true →
      ∃ g', tick ops gops g = some g' ∧ atFinish g' = true ∧
        g'.calls.countP Event.isFinish = g.calls.countP Event.isFinish + 1) ∧
    (∀ (fuel : Nat) (g g' : Generator A W), runAll ops gops fuel g = some g' →
      g'.calls.countP Event.isFinish = g.calls.countP Event.isFinish + 1) := by
  have hp : ∀ e : Event A, e.isAgentCall = true → Event.isFinish e = false := by
    intro e he
    cases e <;> simp_all [Event.isAgentCall, Event.isFinish]
  refine ⟨?_, ?_, ?_⟩
  · intro g g' h
    rw [tick_countP ops gops g g' _ hp h]
    simp [List.countP_cons, Event.isFinish]
  · intro g w hw hf
    have hf2 := hf
    simp only [atFinish, Bool.and_eq_true, List.isEmpty_iff, Bool.not_eq_true',
      decide_eq_false_iff_not] at hf2
    refine ⟨_, tick_finish ops gops g w hw hf2.1 hf2.2, ?_, ?_⟩
    · simpa [atFinish] using hf
    · simp [List.countP_append, List.countP_cons, Event.isFinish]
  · intro fuel g g' h
    rw [(runAll_result ops gops fuel g g' h).2.2.2.2.2.2.2 _ hp]
    simp [List.countP_cons, Event.isFinish]

/-- Witness for C4: one runAll on a one-agent script invokes the callback once; the tick
after it invokes it again. -/
theorem finish_callback_per_tick_witness :
    (∀ g', runAll toyOps toyGrid 3 (toyGen [[⟨AgentKind.CoastLine, 1, 2⟩]]) = some g' →
      g'.calls.countP Event.isFinish =
        (toyGen [[⟨AgentKind.CoastLine, 1, 2⟩]]).calls.countP Event.isFinish + 1) ∧
    (runAll toyOps toyGrid 3 (toyGen [[⟨AgentKind.CoastLine, 1, 2⟩]])).isSome = true :=
  ⟨fun g' h => (finish_callback_per_tick toyOps toyGrid).2.2 3 _ g' h, by decide⟩

/-! ## The finalize pass of runAll -/

/-- Claim C5, counterexample: on the script with the single line of a CoastLine agent of
count 1, one runAll from the reset generator calls smoothAll twice and computeNormals twice,
not once. -/
theorem runAll_smoothAll_not_once :
    ∃ g', runAll toyOps toyGrid 3 (reset toyGrid (toyGen [[⟨AgentKind.CoastLine, 1, 2⟩]])) =
        some g' ∧
      g'.calls.countP Event.isSmoothAll = 2 ∧ g'.calls.countP Event.isComputeNormals = 2 ∧
      ¬ (g'.calls.countP Event.isSmoothAll = 1 ∧ g'.calls.countP Event.isComputeNormals = 1) :=
  ⟨_, rfl, by decide, by decide, by decide⟩

/-- Claim C5, as amended: if every clone spawned from a template dies within `L ≥ 1` runs, one
runAll from the reset generator with a grid returns within `phases * L + 1` ticks and has called
smoothAll exactly twice and computeNormals exactly twice: once each in the last tick, right
after the finish callback, and once each after the loop, after setComputeNormals(true); these
six calls are the last calls of the run. -/
theorem runAll_finalizes_twice (ops : AgentOps A W) (gops : GridOps W) (g : Generator A W)
    (p : GridPtr) (L : Nat) (hL : 1 ≤ L) (hp : g.m_heightmap = some p)
    (hmortal : ∀ ph ∈ g.m_phaseAgents, ∀ t ∈ ph, ∀ p w,
      DiesWithin ops L (ops.spawn (ops.copy t) p w).1) :
    ∃ g', runAll ops gops (g.m_phaseAgents.length * L + 1) (reset gops g) = some g' ∧
      g'.calls.countP Event.isSmoothAll = (reset gops g).calls.countP Event.isSmoothAll + 2 ∧
      g'.calls.countP Event.isComputeNormals =
        (reset gops g).calls.countP Event.isComputeNormals + 2 ∧
      ∃ pre, g'.calls = pre ++ [Event.finish, Event.smoothAll, Event.computeNormals,
        Event.setComputeNormals true, Event.smoothAll, Event.computeNormals] := by
  have hwr : (reset gops g).m_heightmap = some p := hp
  obtain ⟨gl, hgl⟩ := runAllLoop_terminates ops gops g.m_phaseAgents L hL hmortal
    g.m_phaseAgents.length
    { reset gops g with
      world := gops.setComputeNormals false p (reset gops g).world
      m_isRunning := true
      calls := (reset gops g).calls ++ [Event.setComputeNormals false] }
    rfl (by simp [reset]) rfl rfl ⟨p, hp⟩
  obtain ⟨g', hg'⟩ := runAll_of_loop ops gops _ (reset gops g) gl p hwr hgl
  obtain ⟨_, _, _, _, _, _, hpre, hcount⟩ := runAll_result ops gops _ _ g' hg'
  have hp1 : ∀ e : Event A, e.isAgentCall = true → Event.isSmoothAll e = false := by
    intro e he
    cases e <;> simp_all [Event.isAgentCall, Event.isSmoothAll]
  have hp2 : ∀ e : Event A, e.isAgentCall = true → Event.isComputeNormals e = false := by
    intro e he
    cases e <;> simp_all [Event.isAgentCall, Event.isComputeNormals]
  refine ⟨g', hg', ?_, ?_, hpre⟩
  · rw [hcount _ hp1]
    simp [List.countP_cons, Event.isSmoothAll]
  · rw [hcount _ hp2]
    simp [List.countP_cons, Event.isComputeNormals]

/-- Witness for C5: the one-line script of a toy CoastLine agent that lives two steps. -/
theorem runAll_finalizes_twice_witness :
    ∃ g', runAll toyOps toyGrid (1 * 2 + 1) (reset toyGrid (toyGen [[⟨AgentKind.CoastLine, 1, 2⟩]])) =
        some g' ∧
      g'.calls.countP Event.isSmoothAll =
        (reset toyGrid (toyGen [[⟨AgentKind.CoastLine, 1, 2⟩]])).calls.countP
          Event.isSmoothAll + 2 ∧
      g'.calls.countP Event.isComputeNormals =
        (reset toyGrid (toyGen [[⟨AgentKind.CoastLine, 1, 2⟩]])).calls.countP
          Event.isComputeNormals + 2 ∧
      ∃ pre, g'.calls = pre ++ [Event.finish, Event.smoothAll, Event.computeNormals,
        Event.setComputeNormals true, Event.smoothAll, Event.computeNormals] :=
  runAll_finalizes_twice toyOps toyGrid (toyGen [[⟨AgentKind.CoastLine, 1, 2⟩]]) 0 2
    (by decide) rfl (by
      intro ph hph t ht p w
      simp only [toyGen, List.mem_singleton] at hph
      subst hph
      simp only [List.mem_singleton] at ht
      subst ht
      intro w1
      right
      intro w2
      left
      rfl)

/-! ## isStarted, isOver and ticks after the end -/

/-- Claim C6, counterexample: in the state a completed runAll leaves, isOver() is true, and one
more tick() invokes the finish callback and calls smoothAll and computeNormals on the grid. -/
theorem over_state_tick_not_noop :
    ∃ g1 g2, runAll toyOps toyGrid 3 (reset toyGrid (toyGen [[⟨AgentKind.CoastLine, 1, 2⟩]])) =
        some g1 ∧
      isOver g1 = true ∧ tick toyOps toyGrid g1 = some g2 ∧
      g2.calls = g1.calls ++ [Event.finish, Event.smoothAll, Event.computeNormals] ∧
      ¬ (g2.calls.countP Event.isFinish = g1.calls.countP Event.isFinish ∧
        g2.calls.countP Event.isGrid = g1.calls.countP Event.isGrid) :=
  ⟨_, _, rfl, rfl, rfl, rfl, by decide⟩

/-- Claim C6, as amended: in a state where isOver() is true, no agent is live, no phase is left
and a grid is assigned, tick() leaves the live agents, the phase cursor, the templates, the grid
pointer and the started and running flags as they are, and adds one to the tick count when it
is below 2147483647 (at 2147483647 the int counter wraps to -2147483648); but it invokes the
finish callback again and then smoothAll and computeNormals on the grid again. -/
theorem tick_when_over (ops : AgentOps A W) (gops : GridOps W) (g : Generator A W)
    (p : GridPtr) (hov : isOver g = true) (hA : g.m_agents = [])
    (hc : ¬ g.m_nextPhase < g.m_phaseAgents.length) (hp : g.m_heightmap = some p) :
    tick ops gops g = some { g with
      world := gops.computeNormals p (gops.smoothAll p g.world)
      calls := g.calls ++ [Event.finish, Event.smoothAll, Event.computeNormals]
      m_tickCount := wrapInt32 (g.m_tickCount + 1) } ∧
    (∀ g', tick ops gops g = some g' →
      g'.m_agents = g.m_agents ∧ g'.m_nextPhase = g.m_nextPhase ∧
      isStarted g' = isStarted g ∧ isOver g' = isOver g ∧
      g'.m_isRunning = g.m_isRunning ∧ g'.m_phaseAgents = g.m_phaseAgents ∧
      g'.m_heightmap = g.m_heightmap ∧
      (-2147483648 ≤ getTickCount g → getTickCount g < 2147483647 →
        getTickCount g' = getTickCount g + 1) ∧
      (getTickCount g = 2147483647 → getTickCount g' = -2147483648)) := by
  simp only [isOver, Bool.and_eq_true, Bool.not_eq_true'] at hov
  have ht : tick ops gops g = some { g with
      world := gops.computeNormals p (gops.smoothAll p g.world)
      calls := g.calls ++ [Event.finish, Event.smoothAll, Event.computeNormals]
      m_tickCount := wrapInt32 (g.m_tickCount + 1) } := by
    rw [tick_finish ops gops g p hp hA hc]
    cases g
    simp_all
  refine ⟨ht, ?_⟩
  intro g' hg'
  rw [ht] at hg'
  have e := Option.some.inj hg'
  subst e
  refine ⟨rfl, rfl, rfl, rfl, rfl, rfl, rfl, ?_, ?_⟩
  · intro hlo hhi
    simp only [getTickCount] at hlo hhi ⊢
    exact wrapInt32_eq _ (by omega) (by omega)
  · intro hmax
    simp only [getTickCount] at hmax ⊢
    rw [hmax]
    decide

/-- Witness for C6: the state a completed runAll leaves on the one-agent toy script. -/
theorem tick_when_over_witness :
    tick toyOps toyGrid
      { toyGen [[⟨AgentKind.CoastLine, 1, 2⟩]] with
        m_hasStarted := true, m_nextPhase := 1, m_tickCount := 3, world := 2 } =
      some { toyGen [[⟨AgentKind.CoastLine, 1, 2⟩]] with
        m_hasStarted := true, m_nextPhase := 1, m_tickCount := 4, world := 2,
        calls := [Event.finish, Event.smoothAll, Event.computeNormals] } :=
  (tick_when_over toyOps toyGrid
    { toyGen [[⟨AgentKind.CoastLine, 1, 2⟩]] with
      m_hasStarted := true, m_nextPhase := 1, m_tickCount := 3, world := 2 }
    0 rfl rfl (by decide) rfl).1

/-- Claim C7, the defect: tick() sets the started flag but never the running flag (only runAll
sets it), so after any tick() from a reset generator isOver() is true, whatever phases are left
and whatever agents are live. -/
theorem isOver_after_first_tick (ops : AgentOps A W) (gops : GridOps W)
    (g g' : Generator A W) (h : tick ops gops (reset gops g) = some g') :
    isStarted g' = true ∧ isOver g' = true := by
  obtain ⟨_, f2, _, f4, _, _, _⟩ := tick_frame ops gops _ g' h
  simp [isStarted, isOver, f2, f4, reset]

/-- Claim C7, the failing input: a reset generator with a grid and one phase holding one
template of count 1. After a single tick() the agent is live, the finish branch has not run,
and isOver() is already true. -/
theorem isOver_after_first_tick_witness :
    ∃ g', tick toyOps toyGrid (reset toyGrid (toyGen [[⟨AgentKind.CoastLine, 1, 2⟩]])) =
        some g' ∧
      isStarted g' = true ∧ isOver g' = true ∧
      g'.m_agents = [⟨AgentKind.CoastLine, 1, 1⟩] ∧
      g'.calls.countP Event.isFinish = 0 :=
  ⟨_, rfl,
    (isOver_after_first_tick toyOps toyGrid (toyGen [[⟨AgentKind.CoastLine, 1, 2⟩]]) _ rfl).1,
    (isOver_after_first_tick toyOps toyGrid (toyGen [[⟨AgentKind.CoastLine, 1, 2⟩]]) _ rfl).2,
    rfl, by decide⟩

/-! ## load -/

theorem segments_ne_nil (lines : List QString) : segments lines ≠ [] := by
  cases lines with
  | nil => simp [segments]
  | cons line rest =>
    simp only [segments]
    split
    · simp
    · split <;> simp

theorem segments_length (lines : List QString) :
    (segments lines).length = 1 + lines.count "newPhase".data := by
  induction lines with
  | nil => simp [segments]
  | cons line rest ih =>
    simp only [segments]
    by_cases hl : line = "newPhase".data
    · subst hl
      simp only [if_true, List.length_cons, ih, List.count_cons_self]
      omega
    · have hne : ¬ ("newPhase".data = line) := fun e => hl e.symm
      rw [if_neg hl, List.count_cons_of_ne hne]
      cases hs : segments rest with
      | nil => exact absurd hs (segments_ne_nil rest)
      | cons seg segs =>
        rw [hs] at ih
        simpa using ih

theorem pushBack_concat (done : List (List A)) (cur : List A) (a : A) :
    pushBack (done ++ [cur]) a = some (done ++ [cur ++ [a]]) := by
  induction done with
  | nil => simp [pushBack]
  | cons p ps ih =>
    cases hps : ps ++ [cur] with
    | nil => simp at hps
    | cons q qs =>
      rw [List.cons_append, hps, pushBack, ← hps, ih]
      simp

/-- One pass of the reading loop on a line that has a field 0 and is not `newPhase`. -/
theorem loadLine_field (ops : AgentOps A W) (done : List (List A)) (cur : List A)
    (line : QString) (hn : line ≠ "newPhase".data) (hf : splitSkipEmpty '!' line ≠ []) :
    loadLine ops (done ++ [cur]) line =
      some (done ++ [cur ++ segmentTemplates ops [line]]) := by
  simp only [loadLine, if_neg hn, segmentTemplates, lineKind]
  cases hs : splitSkipEmpty '!' line with
  | nil => exact absurd hs hf
  | cons f fs =>
    simp only [List.filterMap_cons, List.filterMap_nil, hs]
    split_ifs <;> simp [loadAgent, pushBack_concat]

/-- One pass of the reading loop on a line that is not `newPhase` and has no field: reading
field 0 is out of range. -/
theorem loadLine_nofield (ops : AgentOps A W) (phases : List (List A)) (line : QString)
    (hn : line ≠ "newPhase".data) (hf : splitSkipEmpty '!' line = []) :
    loadLine ops phases line = none := by
  simp [loadLine, hn, hf]

/-- The phases an accumulated state and the remaining segments give. -/
theorem loadLines_segments (ops : AgentOps A W) (lines : List QString)
    (done : List (List A)) (cur : List A)
    (hall : ∀ line ∈ lines, hasField0 line = true) :
    ∃ seg segs, segments lines = seg :: segs ∧
      loadLines ops lines (done ++ [cur]) =
        some (done ++ (cur ++ segmentTemplates ops seg) :: segs.map (segmentTemplates ops)) := by
  induction lines generalizing done cur with
  | nil => exact ⟨[], [], rfl, by simp [loadLines, segmentTemplates]⟩
  | cons line rest ih =>
    have hrest : ∀ l ∈ rest, hasField0 l = true := fun l hl => hall l (List.mem_cons_of_mem _ hl)
    by_cases hl : line = "newPhase".data
    · obtain ⟨seg, segs, hs, hload⟩ := ih (done ++ [cur]) [] hrest
      refine ⟨[], seg :: segs, by simp [segments, hl, hs], ?_⟩
      rw [loadLines, loadLine, if_pos hl, Option.some_bind, hload]
      simp [segmentTemplates]
    · have hf : splitSkipEmpty '!' line ≠ [] := by
        have h1 := hall line (List.mem_cons_self _ _)
        simpa [hasField0, hl] using h1
      obtain ⟨seg, segs, hs, hload⟩ := ih done (cur ++ segmentTemplates ops [line]) hrest
      refine ⟨line :: seg, segs, by simp [segments, hl, hs], ?_⟩
      rw [loadLines, loadLine_field ops done cur line hl hf, Option.some_bind, hload]
      simp [segmentTemplates, List.filterMap_cons]
      cases lineKind line <;> simp

/-- On a script in which every line has a field 0 to read, load builds the phases the script
describes. -/
theorem loadLines_scriptPhases (ops : AgentOps A W) (lines : List QString)
    (hall : ∀ line ∈ lines, hasField0 line = true) :
    loadLines ops lines [[]] = some (scriptPhases ops lines) := by
  obtain ⟨seg, segs, hs, hload⟩ := loadLines_segments ops lines [] [] hall
  rw [scriptPhases, hs]
  simpa using hload

/-- On a script with a line that is not `newPhase` and has no field, load faults. -/
theorem loadLines_fault (ops : AgentOps A W) (lines : List QString) (phases : List (List A))
    (hex : ∃ line ∈ lines, hasField0 line = false) :
    loadLines ops lines phases = none := by
  induction lines generalizing phases with
  | nil => simp at hex
  | cons line rest ih =>
    by_cases hb : hasField0 line = true
    · have hex2 : ∃ l ∈ rest, hasField0 l = false := by
        obtain ⟨l, hl, hlf⟩ := hex
        rcases List.mem_cons.1 hl with e | e
        · subst e
          rw [hb] at hlf
          exact absurd hlf (by simp)
        · exact ⟨l, e, hlf⟩
      rw [loadLines]
      cases loadLine ops phases line with
      | none => rfl
      | some ph => exact ih ph hex2
    · simp only [hasField0, Bool.or_eq_true, decide_eq_true_eq, Bool.not_eq_true',
        List.isEmpty_eq_false, not_or, not_not] at hb
      have hf : splitSkipEmpty '!' line = [] := by
        cases h : splitSkipEmpty '!' line with
        | nil => rfl
        | cons f fs => simp [h] at hb
      rw [loadLines, loadLine_nofield ops phases line hb.1 hf]
      rfl

/-- Claim C8, the failing input: a script with an empty line between two agent lines. The
script describes one phase with a CoastLine and a Mountain template, but load faults on the
empty line (field 0 of an empty list of fields), the defect of claim C9. -/
theorem load_faults_on_empty_line :
    load toyOps toyGrid ["CoastLine!count=1".data, [], "Mountain!count=1".data] (toyGen []) =
      none ∧
    scriptPhases toyOps ["CoastLine!count=1".data, [], "Mountain!count=1".data] =
      [[⟨AgentKind.CoastLine, 1, 2⟩, ⟨AgentKind.Mountain, 1, 2⟩]] ∧
    (load toyOps toyGrid ["CoastLine!count=1".data, "Volcano!count=1".data, "newPhase".data,
        "Mountain!count=1".data] (toyGen [])).map (fun g => g.m_phaseAgents) =
      some [[⟨AgentKind.CoastLine, 1, 2⟩], [⟨AgentKind.Mountain, 1, 2⟩]] :=
  ⟨rfl, rfl, rfl⟩

/-- Claim C9, the defect: a line that is not `newPhase` and splits into no field (an empty
line, a line made only of '!') is not skipped: reading field 0 is out of range and load faults,
whatever lines come before and after. -/
theorem load_faults_on_fieldless_line (ops : AgentOps A W) (gops : GridOps W)
    (before after : List QString) (line : QString) (g : Generator A W)
    (hn : line ≠ "newPhase".data) (hf : splitSkipEmpty '!' line = []) :
    load ops gops (before ++ line :: after) g = none := by
  have h : loadLines ops (before ++ line :: after) [[]] = none := by
    apply loadLines_fault
    refine ⟨line, by simp, ?_⟩
    simp [hasField0, hn, hf]
  simp [load, h]

/-- Claim C9, the failing inputs: the script made of one empty line, and a script with a line
made only of '!' before an agent line. -/
theorem load_faults_on_fieldless_line_witness :
    load toyOps toyGrid ([] ++ [] :: []) (toyGen []) = none ∧
    load toyOps toyGrid (["River!count=1".data] ++ "!!!".data :: ["Beach!count=1".data])
      (toyGen []) = none :=
  ⟨load_faults_on_fieldless_line toyOps toyGrid [] [] [] (toyGen []) (by decide) (by decide),
   load_faults_on_fieldless_line toyOps toyGrid ["River!count=1".data] ["Beach!count=1".data]
    "!!!".data (toyGen []) (by decide) (by decide)⟩

/-! ## save -/

theorem unlines_append (l1 l2 : List QString) : unlines (l1 ++ l2) = unlines l1 ++ unlines l2 := by
  simp [unlines]

theorem savePhase_eq (ops : AgentOps A W) (p : List A) (out : QString) :
    savePhase ops p out = out ++ unlines (p.map ops.toString) := by
  induction p generalizing out with
  | nil => simp [savePhase, unlines]
  | cons a rest ih =>
    have e : "\n".data = ['\n'] := rfl
    simp [savePhase, ih, unlines, e]

theorem saveFrom_succ (ops : AgentOps A W) (i : Nat) (ps : List (List A)) (out : QString) :
    saveFrom ops (i + 1) ps out =
      out ++ unlines (ps.flatMap (fun q => "newPhase".data :: q.map ops.toString)) := by
  induction ps generalizing i out with
  | nil => simp [saveFrom, unlines]
  | cons p ps ih =>
    have e : "newPhase\n".data = "newPhase".data ++ ['\n'] := rfl
    simp only [saveFrom, ih, savePhase_eq, e]
    simp [unlines]

theorem save_eq_unlines (ops : AgentOps A W) (g : Generator A W) :
    save ops g = unlines (saveLines ops g.m_phaseAgents) := by
  cases h : g.m_phaseAgents with
  | nil => simp [save, h, saveFrom, saveLines, unlines]
  | cons p ps =>
    simp only [save, h, saveFrom, saveLines, savePhase_eq, saveFrom_succ]
    simp [unlines]

theorem readAux_line (l cur rest : QString) (hl : '\n' ∉ l) :
    readAux cur (l ++ '\n' :: rest) = (cur ++ l) :: readAux [] rest := by
  induction l generalizing cur with
  | nil => simp [readAux]
  | cons c cs ih =>
    have hc : c ≠ '\n' := fun e => hl (by simp [e])
    have hcs : '\n' ∉ cs := fun e => hl (List.mem_cons_of_mem _ e)
    simp [readAux, hc, ih _ hcs]

/-- Reading back, line by line, a text made of lines without a newline gives the lines. -/
theorem readLines_unlines (ls : List QString) (h : ∀ l ∈ ls, '\n' ∉ l) :
    readLines (unlines ls) = ls := by
  induction ls with
  | nil => simp [readLines, unlines, readAux]
  | cons l rest ih =>
    have h1 : '\n' ∉ l := h l (List.mem_cons_self _ _)
    have h2 : ∀ x ∈ rest, '\n' ∉ x := fun x hx => h x (List.mem_cons_of_mem _ hx)
    have e : unlines (l :: rest) = l ++ '\n' :: unlines rest := by simp [unlines]
    rw [readLines, e, readAux_line l [] _ h1]
    simp only [List.nil_append, List.cons.injEq, true_and]
    exact ih h2

theorem count_newPhase_flatMap (ops : AgentOps A W) (ps : List (List A))
    (h : ∀ ph ∈ ps, ∀ t ∈ ph, ops.toString t ≠ "newPhase".data) :
    (ps.flatMap (fun q => "newPhase".data :: q.map ops.toString)).count "newPhase".data =
      ps.length := by
  induction ps with
  | nil => simp
  | cons p ps ih =>
    have h1 : (p.map ops.toString).count "newPhase".data = 0 := by
      rw [List.count_eq_zero]
      intro hm
      obtain ⟨t, ht, e⟩ := List.mem_map.1 hm
      exact h p (List.mem_cons_self _ _) t ht e
    have h2 := ih (fun ph hph => h ph (List.mem_cons_of_mem _ hph))
    simp only [List.flatMap_cons, List.cons_append, List.count_cons_self, List.count_append,
      h1, h2, List.length_cons]
    omega

theorem saveLines_no_newline (ops : AgentOps A W) (phases : List (List A))
    (h : ∀ ph ∈ phases, ∀ t ∈ ph, '\n' ∉ ops.toString t) :
    ∀ l ∈ saveLines ops phases, '\n' ∉ l := by
  intro l hl
  cases phases with
  | nil => simp [saveLines] at hl
  | cons p ps =>
    simp only [saveLines, List.mem_append, List.mem_map, List.mem_flatMap, List.mem_cons] at hl
    rcases hl with ⟨t, ht, rfl⟩ | ⟨q, hq, rfl | ⟨t, ht, rfl⟩⟩
    · exact h p (List.mem_cons_self _ _) t ht
    · decide
    · exact h q (List.mem_cons_of_mem _ hq) t ht

/-- Claim C10: the text save writes is, phase by phase in index order, one line
toString() + newline per template in declaration order, with the line newPhase written before
every phase except phase 0. When no serialized template contains a newline or is the text
newPhase, the lines of the written text are exactly these lines, the text has
max(phases - 1, 0) lines newPhase, and it starts with the lines of the agents of phase 0, with
no newPhase before them. -/
theorem save_text (ops : AgentOps A W) (g : Generator A W) :
    save ops g = unlines (saveLines ops g.m_phaseAgents) ∧
    ((∀ ph ∈ g.m_phaseAgents, ∀ t ∈ ph,
        '\n' ∉ ops.toString t ∧ ops.toString t ≠ "newPhase".data) →
      readLines (save ops g) = saveLines ops g.m_phaseAgents ∧
      (readLines (save ops g)).count "newPhase".data = g.m_phaseAgents.length - 1 ∧
      ∀ p ps, g.m_phaseAgents = p :: ps →
        (readLines (save ops g)).take p.length = p.map ops.toString) := by
  refine ⟨save_eq_unlines ops g, ?_⟩
  intro h
  have hr : readLines (save ops g) = saveLines ops g.m_phaseAgents := by
    rw [save_eq_unlines]
    exact readLines_unlines _
      (saveLines_no_newline ops _ (fun ph hph t ht => (h ph hph t ht).1))
  rw [hr]
  refine ⟨rfl, ?_, ?_⟩
  · cases hp : g.m_phaseAgents with
    | nil => simp [saveLines]
    | cons p ps =>
      rw [hp] at h
      have h1 : (p.map ops.toString).count "newPhase".data = 0 := by
        rw [List.count_eq_zero]
        intro hm
        obtain ⟨t, ht, e⟩ := List.mem_map.1 hm
        exact (h p (List.mem_cons_self _ _) t ht).2 e
      have h2 := count_newPhase_flatMap ops ps
        (fun ph hph t ht => (h ph (List.mem_cons_of_mem _ hph) t ht).2)
      simp only [saveLines, List.count_append, h1, h2, List.length_cons]
      omega
  · intro p ps hp
    rw [hp]
    simp [saveLines]

/-- Witness for C10: three phases, the middle one empty, written by the toy agents. -/
theorem save_text_witness :
    save toyOps (toyGen [[⟨AgentKind.River, 1, 2⟩], [], [⟨AgentKind.Beach, 1, 2⟩]]) =
      "River\nnewPhase\nnewPhase\nBeach\n".data ∧
    (readLines (save toyOps
      (toyGen [[⟨AgentKind.River, 1, 2⟩], [], [⟨AgentKind.Beach, 1, 2⟩]]))).count
        "newPhase".data = 3 - 1 :=
  ⟨(save_text toyOps
      (toyGen [[⟨AgentKind.River, 1, 2⟩], [], [⟨AgentKind.Beach, 1, 2⟩]])).1,
   ((save_text toyOps
      (toyGen [[⟨AgentKind.River, 1, 2⟩], [], [⟨AgentKind.Beach, 1, 2⟩]])).2
      (by decide)).2.1⟩

/-! ## addAgent -/

theorem growLoop_eq (target fuel : Nat) (phases : List (List A))
    (h : target + 1 ≤ phases.length + fuel) :
    growLoop target fuel phases =
      some (phases ++ List.replicate (target + 1 - phases.length) []) := by
  induction fuel generalizing phases with
  | zero =>
    have h1 : ¬ target ≥ phases.length := by omega
    have h2 : target + 1 - phases.length = 0 := by omega
    simp [growLoop, h1, h2]
  | succ fuel ih =>
    by_cases h1 : target ≥ phases.length
    · have h2 : target + 1 - phases.length = (target + 1 - (phases ++ [[]]).length) + 1 := by
        simp only [List.length_append, List.length_singleton]
        omega
      have h3 : target + 1 ≤ (phases ++ [[]]).length + fuel := by
        simp only [List.length_append, List.length_singleton]
        omega
      rw [growLoop, if_pos h1, ih (phases ++ [[]]) h3, h2, List.replicate_succ]
      simp
    · have h2 : target + 1 - phases.length = 0 := by omega
      simp [growLoop, h1, h2]

theorem pushAt_eq (a : A) (i : Nat) (phases : List (List A)) (h : i < phases.length) :
    pushAt i a phases = some (phases.set i (phases[i] ++ [a])) := by
  induction phases generalizing i with
  | nil => simp at h
  | cons p ps ih =>
    cases i with
    | zero => simp [pushAt]
    | succ i =>
      have h1 : i < ps.length := by simpa using h
      simp [pushAt, ih i h1]

theorem getD_append_replicate_nil (P : List (List A)) (k i : Nat) :
    (P ++ List.replicate k ([] : List A)).getD i [] = P.getD i [] := by
  by_cases h : i < P.length
  · simp [List.getD_eq_getElem?_getD, List.getElem?_append_left h]
  · have h1 : P.length ≤ i := by omega
    simp only [List.getD_eq_getElem?_getD, List.getElem?_append_right h1,
      List.getElem?_eq_none h1, Option.getD_none]
    by_cases h2 : i - P.length < k
    · simp [List.getElem?_replicate, h2]
    · simp [List.getElem?_replicate, h2]

/-- The phase list addAgent leaves, for a phase index in the range of a non-negative `int`. -/
theorem addAgent_eq (p : Int) (a : A) (g : Generator A W) (h0 : 0 ≤ p) (h1 : p < 2147483648) :
    addAgent p a g = some { g with
      m_phaseAgents :=
        (g.m_phaseAgents ++ List.replicate (p.toNat + 1 - g.m_phaseAgents.length) []).set
          p.toNat (g.m_phaseAgents.getD p.toNat [] ++ [a]) } := by
  have hc : (p % 4294967296).toNat = p.toNat := by
    rw [Int.emod_eq_of_lt h0 (by omega)]
  have hlt : p.toNat <
      (g.m_phaseAgents ++ List.replicate (p.toNat + 1 - g.m_phaseAgents.length) []).length := by
    simp only [List.length_append, List.length_replicate]
    omega
  have hget : (g.m_phaseAgents ++
      List.replicate (p.toNat + 1 - g.m_phaseAgents.length) ([] : List A))[p.toNat] =
      g.m_phaseAgents.getD p.toNat [] := by
    rw [← getD_append_replicate_nil g.m_phaseAgents (p.toNat + 1 - g.m_phaseAgents.length),
      List.getD_eq_getElem?_getD, List.getElem?_eq_getElem hlt]
    rfl
  simp only [addAgent, hc]
  rw [growLoop_eq _ _ _ (by omega)]
  simp only [h0, if_true]
  rw [pushAt_eq a _ _ hlt, hget]
  rfl

/-- Claim C11: for a phase index `p >= 0` (an `int`) and a phase list of length `n`,
addAgent(p, a) leaves a phase list of length max(n, p + 1) in which phase `p` is its previous
content (empty if `p >= n`) followed by `a`, every other phase that existed is unchanged and
every other new phase is empty; the live agents, the phase cursor, the tick count and the rest
of the state are unchanged. -/
theorem addAgent_appends (p : Int) (a : A) (g : Generator A W) (h0 : 0 ≤ p)
    (h1 : p < 2147483648) :
    ∃ g', addAgent p a g = some g' ∧
      g'.m_phaseAgents.length = max g.m_phaseAgents.length (p.toNat + 1) ∧
      g'.m_phaseAgents[p.toNat]? = some (g.m_phaseAgents.getD p.toNat [] ++ [a]) ∧
      (∀ i, i ≠ p.toNat → i < g.m_phaseAgents.length →
        g'.m_phaseAgents[i]? = g.m_phaseAgents[i]?) ∧
      (∀ i, i ≠ p.toNat → g.m_phaseAgents.length ≤ i → i < g'.m_phaseAgents.length →
        g'.m_phaseAgents[i]? = some []) ∧
      g'.m_agents = g.m_agents ∧ g'.m_nextPhase = g.m_nextPhase ∧
      g'.m_tickCount = g.m_tickCount ∧ g'.m_hasStarted = g.m_hasStarted ∧
      g'.m_isRunning = g.m_isRunning ∧ g'.m_heightmap = g.m_heightmap ∧
      g'.calls = g.calls := by
  refine ⟨_, addAgent_eq p a g h0 h1, ?_, ?_, ?_, ?_, rfl, rfl, rfl, rfl, rfl, rfl, rfl⟩
  · simp only [List.length_set, List.length_append, List.length_replicate]
    omega
  · have hlt : p.toNat <
        (g.m_phaseAgents ++ List.replicate (p.toNat + 1 - g.m_phaseAgents.length) []).length := by
      simp only [List.length_append, List.length_replicate]
      omega
    simp only [List.getElem?_set_self hlt]
  · intro i hi hlt
    have hne : p.toNat ≠ i := fun e => hi e.symm
    simp only [List.getElem?_set_ne hne, List.getElem?_append_left hlt]
  · intro i hi hle hlt
    have hne : p.toNat ≠ i := fun e => hi e.symm
    simp only [List.length_set, List.length_append, List.length_replicate] at hlt
    have h2 : i - g.m_phaseAgents.length < p.toNat + 1 - g.m_phaseAgents.length := by omega
    simp only [List.getElem?_set_ne hne, List.getElem?_append_right hle,
      List.getElem?_replicate, h2, if_true]

/-- Witness for C11: adding to phase 2 of a one-phase list (it creates an empty phase 1 and a
phase 2 holding the agent). -/
theorem addAgent_appends_witness :
    ∃ g', addAgent 2 ⟨AgentKind.Beach, 1, 2⟩ (toyGen [[⟨AgentKind.River, 1, 2⟩]]) = some g' ∧
      g'.m_phaseAgents.length =
        max (toyGen [[⟨AgentKind.River, 1, 2⟩]]).m_phaseAgents.length ((2 : Int).toNat + 1) ∧
      g'.m_phaseAgents[(2 : Int).toNat]? =
        some ((toyGen [[⟨AgentKind.River, 1, 2⟩]]).m_phaseAgents.getD (2 : Int).toNat [] ++
          [⟨AgentKind.Beach, 1, 2⟩]) ∧
      (∀ i, i ≠ (2 : Int).toNat → i < (toyGen [[⟨AgentKind.River, 1, 2⟩]]).m_phaseAgents.length →
        g'.m_phaseAgents[i]? = (toyGen [[⟨AgentKind.River, 1, 2⟩]]).m_phaseAgents[i]?) ∧
      (∀ i, i ≠ (2 : Int).toNat → (toyGen [[⟨AgentKind.River, 1, 2⟩]]).m_phaseAgents.length ≤ i →
        i < g'.m_phaseAgents.length → g'.m_phaseAgents[i]? = some []) ∧
      g'.m_agents = (toyGen [[⟨AgentKind.River, 1, 2⟩]]).m_agents ∧
      g'.m_nextPhase = (toyGen [[⟨AgentKind.River, 1, 2⟩]]).m_nextPhase ∧
      g'.m_tickCount = (toyGen [[⟨AgentKind.River, 1, 2⟩]]).m_tickCount ∧
      g'.m_hasStarted = (toyGen [[⟨AgentKind.River, 1, 2⟩]]).m_hasStarted ∧
      g'.m_isRunning = (toyGen [[⟨AgentKind.River, 1, 2⟩]]).m_isRunning ∧
      g'.m_heightmap = (toyGen [[⟨AgentKind.River, 1, 2⟩]]).m_heightmap ∧
      g'.calls = (toyGen [[⟨AgentKind.River, 1, 2⟩]]).calls :=
  addAgent_appends 2 ⟨AgentKind.Beach, 1, 2⟩ (toyGen [[⟨AgentKind.River, 1, 2⟩]])
    (by decide) (by decide)

/-! ## reset -/

theorem ticks_phaseAgents (ops : AgentOps A W) (gops : GridOps W) (n : Nat)
    (g g' : Generator A W) (h : ticks ops gops n g = some g') :
    g'.m_phaseAgents = g.m_phaseAgents := by
  induction n generalizing g with
  | zero =>
    simp only [ticks, Option.some.injEq] at h
    rw [← h]
  | succ n ih =>
    simp only [ticks] at h
    cases h1 : tick ops gops g with
    | none => simp [h1] at h
    | some g1 =>
      rw [h1, Option.some_bind] at h
      rw [ih g1 h, (tick_frame ops gops g g1 h1).1]

/-- Claim C12: in every state reached by ticks (from the reset state a load leaves), reset()
leaves no live agent, phase cursor 0 (getCurrentPhase() = -1), tick count 0, isStarted() and
isOver() false, keeps the templates, keeps the grid pointer and calls the grid's reset() when
one is assigned; the scheduler state it leaves is the one the run started from, and a second
reset() does not change it. -/
theorem reset_restores (ops : AgentOps A W) (gops : GridOps W) (g0 g : Generator A W)
    (n : Nat) (h : ticks ops gops n (reset gops g0) = some g) :
    (reset gops g).m_agents = [] ∧ (reset gops g).m_nextPhase = 0 ∧
    getCurrentPhase (reset gops g) = -1 ∧ getTickCount (reset gops g) = 0 ∧
    isStarted (reset gops g) = false ∧ isOver (reset gops g) = false ∧
    (reset gops g).m_phaseAgents = g.m_phaseAgents ∧
    (reset gops g).m_heightmap = g.m_heightmap ∧
    (reset gops g).world =
      (match g.m_heightmap with
        | some p => gops.reset p g.world
        | none => g.world) ∧
    (reset gops g).calls =
      g.calls ++ (if g.m_heightmap.isSome = true then [Event.gridReset] else []) ∧
    schedulerState (reset gops g) = schedulerState (reset gops g0) ∧
    schedulerState (reset gops (reset gops g)) = schedulerState (reset gops g) := by
  have hP : g.m_phaseAgents = g0.m_phaseAgents :=
    ticks_phaseAgents ops gops n (reset gops g0) g h
  refine ⟨rfl, rfl, ?_, ?_, rfl, ?_, rfl, rfl, rfl, ?_, ?_, rfl⟩
  · simp [getCurrentPhase, reset]
  · simp [getTickCount, reset]
  · simp [isOver, reset]
  · cases hw : g.m_heightmap <;> simp [reset, hw]
  · simp [schedulerState, reset, hP]

/-- Witness for C12: reset after three ticks of the two-phase toy script. -/
theorem reset_restores_witness :
    schedulerState (reset toyGrid
        { toyGen [[⟨AgentKind.CoastLine, 1, 2⟩], [⟨AgentKind.Mountain, 1, 2⟩]] with
          m_hasStarted := true
          m_nextPhase := 2
          m_tickCount := 3
          world := 3
          m_agents := [⟨AgentKind.Mountain, 1, 1⟩]
          calls := [Event.gridReset,
            Event.copy ⟨AgentKind.CoastLine, 1, 2⟩, Event.spawn ⟨AgentKind.CoastLine, 1, 2⟩,
            Event.run ⟨AgentKind.CoastLine, 1, 2⟩, Event.run ⟨AgentKind.CoastLine, 1, 1⟩,
            Event.copy ⟨AgentKind.Mountain, 1, 2⟩, Event.spawn ⟨AgentKind.Mountain, 1, 2⟩,
            Event.run ⟨AgentKind.Mountain, 1, 2⟩] }) =
      schedulerState (reset toyGrid
        (toyGen [[⟨AgentKind.CoastLine, 1, 2⟩], [⟨AgentKind.Mountain, 1, 2⟩]])) :=
  (reset_restores toyOps toyGrid
    (toyGen [[⟨AgentKind.CoastLine, 1, 2⟩], [⟨AgentKind.Mountain, 1, 2⟩]]) _ 3
    rfl).2.2.2.2.2.2.2.2.2.2.1

/-! ## Ticking without a grid -/

theorem spawnPhase_no_clone (ops : AgentOps A W) (ts : List A) (g : Generator A W)
    (h : clonesOf ops ts = []) : spawnPhase ops ts g = some g := by
  induction ts with
  | nil => simp [spawnPhase]
  | cons t ts ih =>
    have hcl : clonesOf ops (t :: ts) =
        List.replicate (ops.getValue t "count".data).toNat t ++ clonesOf ops ts := by
      simp [clonesOf]
    rw [hcl, List.append_eq_nil] at h
    have h0 : (ops.getValue t "count".data).toNat = 0 := by
      cases hn : (ops.getValue t "count".data).toNat with
      | zero => rfl
      | succ k =>
        rw [hn] at h
        simp [List.replicate_succ] at h
    simp [spawnPhase, h0, spawnCount, ih h.2]

/-- Claim C13, counterexample: a constructed generator with no grid, after loading the empty
script (one empty phase) or after adding a template of count 0, completes a tick() as a normal
step: the cursor and the tick count advance. -/
theorem tick_completes_without_grid :
    (∃ g1 g2, load toyOps toyGrid [] (Generator.new 0) = some g1 ∧ g1.m_heightmap = none ∧
      tick toyOps toyGrid g1 = some g2 ∧ g2.m_nextPhase = 1 ∧ g2.m_tickCount = 1) ∧
    (∃ g1 g2, addAgent 0 ⟨AgentKind.River, 0, 2⟩ (Generator.new 0 : Generator ToyAgent Nat) =
        some g1 ∧ g1.m_heightmap = none ∧
      tick toyOps toyGrid g1 = some g2 ∧ g2.m_nextPhase = 1 ∧ g2.m_tickCount = 1) :=
  ⟨⟨_, _, rfl, rfl, rfl, rfl, rfl⟩, ⟨_, _, rfl, rfl, rfl, rfl, rfl⟩⟩

/-- Claim C13, as amended: with no grid assigned, tick() fails only when it has to use the
generator's grid pointer: when no agent is live and no phase is left (the finish branch), or
when no agent is live and the phase to populate spawns a clone (spawn on a null grid). It
completes as a normal step when agents are live (the agent loop does not read the pointer: the
agents run on the grid they were spawned with), and when no agent is live and the next phase
spawns no clone (it is empty or all its templates have a count of zero or less): it then only
sets the started flag and advances the cursor and the 32-bit tick counter. -/
theorem tick_without_grid (ops : AgentOps A W) (gops : GridOps W) (g : Generator A W)
    (hw : g.m_heightmap = none) :
    (g.m_agents ≠ [] →
      tick ops gops g = some { g with
        m_hasStarted := true
        m_agents := survivors ops g.m_agents g.world
        world := (runEach ops g.m_agents g.world).2
        calls := g.calls ++ g.m_agents.map Event.run
        m_tickCount := wrapInt32 (g.m_tickCount + 1) }) ∧
    (∀ hc : g.m_nextPhase < g.m_phaseAgents.length, g.m_agents = [] →
      clonesOf ops g.m_phaseAgents[g.m_nextPhase] = [] →
      tick ops gops g = some { g with
        m_hasStarted := true
        m_nextPhase := g.m_nextPhase + 1
        m_tickCount := wrapInt32 (g.m_tickCount + 1) }) ∧
    (g.m_agents = [] → ¬ g.m_nextPhase < g.m_phaseAgents.length → tick ops gops g = none) ∧
    (∀ hc : g.m_nextPhase < g.m_phaseAgents.length, g.m_agents = [] →
      clonesOf ops g.m_phaseAgents[g.m_nextPhase] ≠ [] → tick ops gops g = none) := by
  refine ⟨tick_live ops gops g, ?_, ?_, ?_⟩
  · intro hc hA hcl
    have h1 : tickHead ops gops g = some { g with
        m_hasStarted := true
        m_agents := []
        m_nextPhase := g.m_nextPhase + 1 } := by
      simp only [tickHead, hA, List.length_nil, if_true, hc, populateNextStep, dite_true,
        List.get_eq_getElem]
      rw [spawnPhase_no_clone ops _ _ hcl]
      rfl
    rw [tick, h1, Option.map_some', tickTail_eq]
    simp [survivors, runEach, hA]
  · intro hA hc
    cases h : tick ops gops g with
    | none => rfl
    | some g' =>
      obtain ⟨hc2, _⟩ := tick_nogrid ops gops g g' hw hA h
      exact absurd hc2 hc
  · intro hc hA hcl
    cases h : tick ops gops g with
    | none => rfl
    | some g' =>
      obtain ⟨_, h2, _⟩ := tick_nogrid ops gops g g' hw hA h
      exact absurd h2 hcl

/-- Witness for C13: without a grid pointer, a phase with a template of count 0 is passed, a
phase with a template of count 1 makes tick fail, and a live agent is run. -/
theorem tick_without_grid_witness :
    tick toyOps toyGrid
      { (Generator.new 0 : Generator ToyAgent Nat) with
        m_phaseAgents := [[⟨AgentKind.River, 0, 2⟩]] } =
      some { (Generator.new 0 : Generator ToyAgent Nat) with
        m_phaseAgents := [[⟨AgentKind.River, 0, 2⟩]]
        m_hasStarted := true
        m_nextPhase := 1
        m_tickCount := 1 } ∧
    tick toyOps toyGrid
      { (Generator.new 0 : Generator ToyAgent Nat) with
        m_phaseAgents := [[⟨AgentKind.River, 1, 2⟩]] } = none ∧
    tick toyOps toyGrid
      { (Generator.new 0 : Generator ToyAgent Nat) with
        m_phaseAgents := [[⟨AgentKind.River, 1, 2⟩]]
        m_nextPhase := 1
        m_agents := [⟨AgentKind.River, 1, 2⟩] } =
      some { (Generator.new 0 : Generator ToyAgent Nat) with
        m_phaseAgents := [[⟨AgentKind.River, 1, 2⟩]]
        m_nextPhase := 1
        m_hasStarted := true
        m_agents := [⟨AgentKind.River, 1, 1⟩]
        world := 1
        calls := [Event.run ⟨AgentKind.River, 1, 2⟩]
        m_tickCount := 1 } :=
  ⟨(tick_without_grid toyOps toyGrid
      { (Generator.new 0 : Generator ToyAgent Nat) with
        m_phaseAgents := [[⟨AgentKind.River, 0, 2⟩]] } rfl).2.1 (by decide) rfl rfl,
   (tick_without_grid toyOps toyGrid
      { (Generator.new 0 : Generator ToyAgent Nat) with
        m_phaseAgents := [[⟨AgentKind.River, 1, 2⟩]] } rfl).2.2.2 (by decide) rfl (by decide),
   (tick_without_grid toyOps toyGrid
      { (Generator.new 0 : Generator ToyAgent Nat) with
        m_phaseAgents := [[⟨AgentKind.River, 1, 2⟩]]
        m_nextPhase := 1
        m_agents := [⟨AgentKind.River, 1, 2⟩] } rfl).1 (by decide)⟩

/-! ## Termination of runAll and the tick counter -/

theorem runAllLoop_nextPhase_le (ops : AgentOps A W) (gops : GridOps W) (n : Nat)
    (g g' : Generator A W) (h : runAllLoop ops gops n g = some g')
    (hle : g.m_nextPhase ≤ g.m_phaseAgents.length) :
    g'.m_nextPhase ≤ g'.m_phaseAgents.length := by
  induction n generalizing g with
  | zero =>
    by_cases hr : g.m_isRunning = true
    · simp [runAllLoop, hr] at h
    · simp only [Bool.not_eq_true] at hr
      rw [runAllLoop_stopped ops gops _ g hr] at h
      rw [← Option.some.inj h]
      exact hle
  | succ n ih =>
    by_cases hr : g.m_isRunning = true
    · cases ht : tick ops gops g with
      | none => simp [runAllLoop, hr, ht] at h
      | some g1 =>
        rw [runAllLoop_step ops gops n g g1 hr ht] at h
        exact ih g1 h (tick_nextPhase_le ops gops g g1 ht hle)
    · simp only [Bool.not_eq_true] at hr
      rw [runAllLoop_stopped ops gops _ g hr] at h
      rw [← Option.some.inj h]
      exact hle

theorem runAll_nextPhase_le (ops : AgentOps A W) (gops : GridOps W) (fuel : Nat)
    (g g' : Generator A W) (h : runAll ops gops fuel g = some g')
    (hle : g.m_nextPhase ≤ g.m_phaseAgents.length) :
    g'.m_nextPhase ≤ g'.m_phaseAgents.length := by
  obtain ⟨p, gl, _, hl, e⟩ := runAll_some ops gops fuel g g' h
  have h1 := runAllLoop_nextPhase_le ops gops fuel _ gl hl hle
  rw [e]
  exact h1

/-- Claim C14: for a reset generator with a grid assigned and `P` phases, if every spawned
agent reports isDead() after at most `L >= 1` calls of run(), runAll() returns after at most
`P * L + 1` ticks, and on return no agent is live, the phase cursor is `P`, isOver() is true and
the finish callback has been invoked exactly once during the call. -/
theorem runAll_terminates (ops : AgentOps A W) (gops : GridOps W) (g : Generator A W)
    (p : GridPtr) (L : Nat) (hL : 1 ≤ L) (hp : g.m_heightmap = some p)
    (hmortal : ∀ ph ∈ g.m_phaseAgents, ∀ t ∈ ph, ∀ p w,
      DiesWithin ops L (ops.spawn (ops.copy t) p w).1) :
    ∃ g', runAll ops gops (g.m_phaseAgents.length * L + 1) (reset gops g) = some g' ∧
      getTickCount g' ≤ g.m_phaseAgents.length * L + 1 ∧
      g'.m_agents = [] ∧ g'.m_nextPhase = g.m_phaseAgents.length ∧
      isStarted g' = true ∧ isOver g' = true ∧
      g'.calls.countP Event.isFinish = (reset gops g).calls.countP Event.isFinish + 1 := by
  have hwr : (reset gops g).m_heightmap = some p := hp
  obtain ⟨gl, hgl⟩ := runAllLoop_terminates ops gops g.m_phaseAgents L hL hmortal
    g.m_phaseAgents.length
    { reset gops g with
      world := gops.setComputeNormals false p (reset gops g).world
      m_isRunning := true
      calls := (reset gops g).calls ++ [Event.setComputeNormals false] }
    rfl (by simp [reset]) rfl rfl ⟨p, hp⟩
  obtain ⟨g', hg'⟩ := runAll_of_loop ops gops _ (reset gops g) gl p hwr hgl
  obtain ⟨r1, r2, r3, r4, r5, r6, _, hcount⟩ := runAll_result ops gops _ _ g' hg'
  have hle := runAll_nextPhase_le ops gops _ _ g' hg' (by simp [reset])
  have hp : ∀ e : Event A, e.isAgentCall = true → Event.isFinish e = false := by
    intro e he
    cases e <;> simp_all [Event.isAgentCall, Event.isFinish]
  have hP : g'.m_phaseAgents = g.m_phaseAgents := r4
  refine ⟨g', hg', ?_, r3, ?_, r2, ?_, ?_⟩
  · have h0 : (reset gops g).m_tickCount = 0 := rfl
    rw [h0] at r6
    have h1 := r6 (by omega)
    simp only [getTickCount]
    push_cast at h1 ⊢
    omega
  · rw [hP] at r5 hle
    omega
  · simp [isOver, r1, r2]
  · rw [hcount _ hp]
    simp [List.countP_cons, Event.isFinish]

/-- Witness for C14: the two-phase toy script, every agent dying within two runs. -/
theorem runAll_terminates_witness :
    ∃ g', runAll toyOps toyGrid
        ((toyGen [[⟨AgentKind.CoastLine, 1, 2⟩], [⟨AgentKind.Mountain, 1, 2⟩]]).m_phaseAgents.length
          * 2 + 1)
        (reset toyGrid (toyGen [[⟨AgentKind.CoastLine, 1, 2⟩], [⟨AgentKind.Mountain, 1, 2⟩]])) =
        some g' ∧
      getTickCount g' ≤
        (toyGen [[⟨AgentKind.CoastLine, 1, 2⟩], [⟨AgentKind.Mountain, 1, 2⟩]]).m_phaseAgents.length
          * 2 + 1 ∧
      g'.m_agents = [] ∧
      g'.m_nextPhase =
        (toyGen [[⟨AgentKind.CoastLine, 1, 2⟩], [⟨AgentKind.Mountain, 1, 2⟩]]).m_phaseAgents.length ∧
      isStarted g' = true ∧ isOver g' = true ∧
      g'.calls.countP Event.isFinish =
        (reset toyGrid
          (toyGen [[⟨AgentKind.CoastLine, 1, 2⟩], [⟨AgentKind.Mountain, 1, 2⟩]])).calls.countP
          Event.isFinish + 1 :=
  runAll_terminates toyOps toyGrid
    (toyGen [[⟨AgentKind.CoastLine, 1, 2⟩], [⟨AgentKind.Mountain, 1, 2⟩]]) 0 2
    (by decide) rfl (by
      intro ph hph t ht p w
      have hlife : t.life = 2 := by
        simp only [toyGen, List.mem_cons, List.mem_singleton, List.not_mem_nil, or_false] at hph
        rcases hph with rfl | rfl
        · simp only [List.mem_singleton] at ht
          rw [ht]
        · simp only [List.mem_singleton] at ht
          rw [ht]
      intro w1
      right
      intro w2
      left
      simp [toyOps, hlife])

/-- Claim C15, counterexample: in a state with a grid, no phase and the tick counter at
2147483647, tick() completes and getTickCount() is -2147483648 after it, not 2147483648. -/
theorem tick_count_wraps_at_int_max :
    ∃ g', tick toyOps toyGrid { toyGen [] with m_tickCount := 2147483647 } = some g' ∧
      getTickCount g' = -2147483648 ∧
      ¬ (getTickCount g' = getTickCount { toyGen [] with m_tickCount := 2147483647 } + 1) :=
  ⟨_, rfl, by decide, by decide⟩

/-- Claim C15, as amended: whenever tick() completes from a state whose tick count is below
2147483647, getTickCount() after the call is getTickCount() before it plus 1, whichever branch
the tick took; at 2147483647 the 32-bit counter wraps to -2147483648. -/
theorem tick_increments_count (ops : AgentOps A W) (gops : GridOps W) (g g' : Generator A W)
    (h : tick ops gops g = some g') :
    (-2147483648 ≤ getTickCount g → getTickCount g < 2147483647 →
      getTickCount g' = getTickCount g + 1) ∧
    (getTickCount g = 2147483647 → getTickCount g' = -2147483648) ∧
    getTickCount g' = wrapInt32 (getTickCount g + 1) := by
  obtain ⟨_, _, hcount, _⟩ := tick_frame ops gops g g' h
  refine ⟨?_, ?_, hcount⟩
  · intro hlo hhi
    simp only [getTickCount] at hlo hhi ⊢
    rw [hcount]
    exact wrapInt32_eq _ (by omega) (by omega)
  · intro hmax
    simp only [getTickCount] at hmax ⊢
    rw [hcount, hmax]
    decide

/-- Witness for C15: three ticks of the one-agent toy script: one that populates the phase,
one that only runs the agent, one that takes the finish branch. -/
theorem tick_increments_count_witness :
    getTickCount
        { toyGen [[⟨AgentKind.CoastLine, 1, 2⟩]] with
          m_hasStarted := true, m_nextPhase := 1, m_tickCount := 1, world := 1,
          m_agents := [⟨AgentKind.CoastLine, 1, 1⟩],
          calls := [Event.copy ⟨AgentKind.CoastLine, 1, 2⟩,
            Event.spawn ⟨AgentKind.CoastLine, 1, 2⟩, Event.run ⟨AgentKind.CoastLine, 1, 2⟩] } =
      getTickCount (toyGen [[⟨AgentKind.CoastLine, 1, 2⟩]]) + 1 ∧
    (ticks toyOps toyGrid 3 (toyGen [[⟨AgentKind.CoastLine, 1, 2⟩]])).map getTickCount =
      some 3 :=
  ⟨(tick_increments_count toyOps toyGrid (toyGen [[⟨AgentKind.CoastLine, 1, 2⟩]]) _ rfl).1
      (by decide) (by decide),
   by decide⟩

/-! ## The phase cursor stays in range -/

theorem growLoop_length_le (target fuel : Nat) (phases ph : List (List A))
    (h : growLoop target fuel phases = some ph) : phases.length ≤ ph.length := by
  induction fuel generalizing phases with
  | zero =>
    by_cases h1 : target ≥ phases.length
    · simp [growLoop, h1] at h
    · simp only [growLoop, if_neg h1, Option.some.injEq] at h
      rw [h]
  | succ fuel ih =>
    by_cases h1 : target ≥ phases.length
    · rw [growLoop, if_pos h1] at h
      have h2 := ih _ h
      simp only [List.length_append, List.length_singleton] at h2
      omega
    · simp only [growLoop, if_neg h1, Option.some.injEq] at h
      rw [h]

theorem pushAt_length (a : A) (i : Nat) (phases ph : List (List A))
    (h : pushAt i a phases = some ph) : ph.length = phases.length := by
  induction phases generalizing i ph with
  | nil => simp [pushAt] at h
  | cons p ps ih =>
    cases i with
    | zero =>
      simp only [pushAt, Option.some.injEq] at h
      rw [← h]
      simp
    | succ i =>
      simp only [pushAt, Option.map_eq_some'] at h
      obtain ⟨r, hr, e⟩ := h
      rw [← e]
      simp [ih i r hr]

theorem addAgent_frame (p : Int) (a : A) (g g' : Generator A W)
    (h : addAgent p a g = some g') :
    g'.m_nextPhase = g.m_nextPhase ∧ g.m_phaseAgents.length ≤ g'.m_phaseAgents.length := by
  simp only [addAgent] at h
  cases hg : growLoop (p % 4294967296).toNat ((p % 4294967296).toNat + 1) g.m_phaseAgents with
  | none => simp [hg] at h
  | some phases =>
    rw [hg] at h
    by_cases h0 : 0 ≤ p
    · simp only [h0, if_true, Option.map_eq_some'] at h
      obtain ⟨ph, hph, e⟩ := h
      rw [← e]
      refine ⟨rfl, ?_⟩
      have h1 := growLoop_length_le _ _ _ _ hg
      have h2 := pushAt_length a _ _ _ hph
      simp only
      omega
    · simp [h0] at h

/-- The cursor is at most the number of phases in every reachable state. -/
theorem reachable_nextPhase_le (ops : AgentOps A W) (gops : GridOps W) (g : Generator A W)
    (h : Reachable ops gops g) : g.m_nextPhase ≤ g.m_phaseAgents.length := by
  induction h with
  | constructed w => simp [Generator.new]
  | afterReset g => simp [reset]
  | setHeightMap g hm _ ih => simpa [setHeightMap] using ih
  | tick g g' _ ht ih => exact tick_nextPhase_le ops gops g g' ht ih
  | runAll fuel g g' _ hr ih => exact runAll_nextPhase_le ops gops fuel g g' hr ih
  | addAgent p a g g' _ ha ih =>
    obtain ⟨h1, h2⟩ := addAgent_frame p a g g' ha
    omega
  | load lines g g' _ hl _ =>
    simp only [load, Option.map_eq_some'] at hl
    obtain ⟨ph, _, e⟩ := hl
    rw [← e]
    simp [reset]

/-- Claim C17: in every state reached from a constructed or reset generator by tick(),
runAll(), addAgent() and load() calls (and setHeightMap), the phase cursor is at most
getPhasesCount(), so -1 <= getCurrentPhase() < getPhasesCount(), and getAgents(getCurrentPhase())
indexes an existing phase whenever getCurrentPhase() >= 0. -/
theorem cursor_in_range (ops : AgentOps A W) (gops : GridOps W) (g : Generator A W)
    (h : Reachable ops gops g) :
    (0 : Int) ≤ (g.m_nextPhase : Int) ∧ (g.m_nextPhase : Int) ≤ getPhasesCount g ∧
    -1 ≤ getCurrentPhase g ∧ getCurrentPhase g < getPhasesCount g ∧
    (0 ≤ getCurrentPhase g →
      ∃ hlt : (getCurrentPhase g).toNat < g.m_phaseAgents.length,
        getAgents (getCurrentPhase g) g = some g.m_phaseAgents[(getCurrentPhase g).toNat]) := by
  have hle := reachable_nextPhase_le ops gops g h
  simp only [getPhasesCount, getCurrentPhase, getAgents]
  refine ⟨by omega, by omega, by omega, by omega, ?_⟩
  intro h0
  have hlt : ((g.m_nextPhase : Int) - 1).toNat < g.m_phaseAgents.length := by omega
  exact ⟨hlt, by simp only [h0, if_true, List.getElem?_eq_getElem hlt]⟩

/-- Witness for C17: the state after load of a two-phase script, an addAgent and two ticks
on the toy generator. -/
theorem cursor_in_range_witness :
    ∃ g : Generator ToyAgent Nat, Reachable toyOps toyGrid g ∧ g.m_nextPhase = 1 ∧
      getCurrentPhase g = 0 ∧ getPhasesCount g = 3 ∧
      getAgents (getCurrentPhase g) g = some [⟨AgentKind.CoastLine, 1, 2⟩] ∧
      ((0 : Int) ≤ (g.m_nextPhase : Int) ∧ (g.m_nextPhase : Int) ≤ getPhasesCount g ∧
        -1 ≤ getCurrentPhase g ∧ getCurrentPhase g < getPhasesCount g ∧
        (0 ≤ getCurrentPhase g →
          ∃ hlt : (getCurrentPhase g).toNat < g.m_phaseAgents.length,
            getAgents (getCurrentPhase g) g =
              some g.m_phaseAgents[(getCurrentPhase g).toNat])) :=
  have h1 : Reachable toyOps toyGrid _ :=
    Reachable.load ["CoastLine!count=1".data, "newPhase".data] _ _
      (Reachable.setHeightMap _ (some 7) (Reachable.constructed 0)) rfl
  have h2 := Reachable.addAgent 2 ⟨AgentKind.Beach, 1, 2⟩ _ _ h1 rfl
  have h3 := Reachable.tick _ _ h2 rfl
  have h4 := Reachable.tick _ _ h3 rfl
  ⟨_, h4, rfl, rfl, rfl, rfl, cursor_in_range toyOps toyGrid _ h4⟩

/-! ## getHeightMapSize -/

theorem getHeightMapSize_eq_zero (gops : GridOps W) (g : Generator A W) :
    getHeightMapSize gops g = 0 := by
  cases h : g.m_heightmap <;> simp [getHeightMapSize, h]

/-- Claim C18, the failing input: a generator to which a grid whose getSize() is 8 has been
assigned with setHeightMap. getHeightMapSize() returns 0, not 8: the value of getSize() is
dropped (no `return` on line 177). -/
theorem getHeightMapSize_drops_size :
    getHeightMapSize toyGrid (setHeightMap (some 0) (Generator.new 0 : Generator ToyAgent Nat)) =
      0 ∧
    toyGrid.getSize 0
      (setHeightMap (some 0) (Generator.new 0 : Generator ToyAgent Nat)).world = 8 ∧
    getHeightMapSize toyGrid (Generator.new 0 : Generator ToyAgent Nat) = 0 :=
  ⟨getHeightMapSize_eq_zero toyGrid _, rfl, getHeightMapSize_eq_zero toyGrid _⟩

/-! ## Script round trip -/

theorem lineKind_of_first_field (line : QString) (k : AgentKind)
    (h : (splitSkipEmpty '!' line).head? = some (kindName k)) : lineKind line = some k := by
  cases hs : splitSkipEmpty '!' line with
  | nil => simp [hs] at h
  | cons f rest =>
    simp only [hs, List.head?_cons, Option.some.injEq] at h
    simp only [lineKind, hs, h]
    cases k <;> decide

theorem segments_append_lines (l rest : List QString) (seg : List QString)
    (segs : List (List QString)) (hl : ∀ x ∈ l, x ≠ "newPhase".data)
    (hs : segments rest = seg :: segs) : segments (l ++ rest) = (l ++ seg) :: segs := by
  induction l with
  | nil => simpa using hs
  | cons x xs ih =>
    have hx : x ≠ "newPhase".data := hl x (List.mem_cons_self _ _)
    have hxs : ∀ y ∈ xs, y ≠ "newPhase".data := fun y hy => hl y (List.mem_cons_of_mem _ hy)
    simp [segments, hx, ih hxs]

theorem segments_later_phases (ops : AgentOps A W) (ps : List (List A))
    (h : ∀ ph ∈ ps, ∀ t ∈ ph, ops.toString t ≠ "newPhase".data) :
    segments (ps.flatMap (fun q => "newPhase".data :: q.map ops.toString)) =
      [] :: ps.map (fun q => q.map ops.toString) := by
  induction ps with
  | nil => simp [segments]
  | cons q qs ih =>
    have hq : ∀ x ∈ q.map ops.toString, x ≠ "newPhase".data := by
      intro x hx
      obtain ⟨t, ht, rfl⟩ := List.mem_map.1 hx
      exact h q (List.mem_cons_self _ _) t ht
    have hqs := ih (fun ph hph => h ph (List.mem_cons_of_mem _ hph))
    have e : (q :: qs).flatMap (fun q => "newPhase".data :: q.map ops.toString) =
        "newPhase".data ::
          (q.map ops.toString ++ qs.flatMap (fun q => "newPhase".data :: q.map ops.toString)) :=
      rfl
    rw [e, segments, if_pos rfl, segments_append_lines _ _ _ _ hq hqs]
    simp

theorem segments_saveLines (ops : AgentOps A W) (p : List A) (ps : List (List A))
    (h : ∀ ph ∈ p :: ps, ∀ t ∈ ph, ops.toString t ≠ "newPhase".data) :
    segments (saveLines ops (p :: ps)) = (p :: ps).map (fun q => q.map ops.toString) := by
  have hp : ∀ x ∈ p.map ops.toString, x ≠ "newPhase".data := by
    intro x hx
    obtain ⟨t, ht, rfl⟩ := List.mem_map.1 hx
    exact h p (List.mem_cons_self _ _) t ht
  have hps := segments_later_phases ops ps (fun ph hph => h ph (List.mem_cons_of_mem _ hph))
  rw [saveLines, segments_append_lines _ _ _ _ hp hps]
  simp

theorem segmentTemplates_serialized (ops : AgentOps A W) (kindOf : A → AgentKind)
    (ph : List A) (h : ∀ t ∈ ph, lineKind (ops.toString t) = some (kindOf t)) :
    segmentTemplates ops (ph.map ops.toString) =
      ph.map (fun t => ops.fromString (ops.create (kindOf t)) (ops.toString t)) := by
  induction ph with
  | nil => simp [segmentTemplates]
  | cons t ts ih =>
    have h1 := h t (List.mem_cons_self _ _)
    have h2 := ih (fun u hu => h u (List.mem_cons_of_mem _ hu))
    simp only [segmentTemplates] at h2
    simp [segmentTemplates, List.filterMap_cons, h1, h2]

/-- Claim C16: for a phase list with at least one phase in which every template's toString()
is a single line (no newline, not `newPhase`) whose first non-empty '!'-field is the type tag of
the agent's own class, loading the text written by save() completes and yields the same number
of phases and, in every phase, the same number of templates with the same agent classes in the
same order. -/
theorem save_load_roundtrip (ops : AgentOps A W) (gops : GridOps W) (kindOf : A → AgentKind)
    (g g0 : Generator A W) (hne : g.m_phaseAgents ≠ [])
    (hline : ∀ ph ∈ g.m_phaseAgents, ∀ t ∈ ph,
      '\n' ∉ ops.toString t ∧ ops.toString t ≠ "newPhase".data ∧
      (splitSkipEmpty '!' (ops.toString t)).head? = some (kindName (kindOf t)))
    (hcreate : ∀ k, kindOf (ops.create k) = k)
    (hfrom : ∀ a line, kindOf (ops.fromString a line) = kindOf a) :
    ∃ g', load ops gops (readLines (save ops g)) g0 = some g' ∧
      g'.m_phaseAgents.length = g.m_phaseAgents.length ∧
      g'.m_phaseAgents.map List.length = g.m_phaseAgents.map List.length ∧
      g'.m_phaseAgents.map (List.map kindOf) = g.m_phaseAgents.map (List.map kindOf) := by
  have hr : readLines (save ops g) = saveLines ops g.m_phaseAgents := by
    rw [save_eq_unlines]
    exact readLines_unlines _
      (saveLines_no_newline ops _ (fun ph hph t ht => (hline ph hph t ht).1))
  have hkind : ∀ ph ∈ g.m_phaseAgents, ∀ t ∈ ph,
      lineKind (ops.toString t) = some (kindOf t) := by
    intro ph hph t ht
    exact lineKind_of_first_field _ _ (hline ph hph t ht).2.2
  cases hP : g.m_phaseAgents with
  | nil => exact absurd hP hne
  | cons p ps =>
    rw [hP] at hline hkind
    have hall : ∀ line ∈ saveLines ops (p :: ps), hasField0 line = true := by
      intro line hl
      simp only [saveLines, List.mem_append, List.mem_map, List.mem_flatMap,
        List.mem_cons] at hl
      rcases hl with ⟨t, ht, rfl⟩ | ⟨q, hq, rfl | ⟨t, ht, rfl⟩⟩
      · have hs := (hline p (List.mem_cons_self _ _) t ht).2.2
        cases hsp : splitSkipEmpty '!' (ops.toString t) with
        | nil => simp [hsp] at hs
        | cons f rest => simp [hasField0, hsp]
      · simp [hasField0]
      · have hs := (hline q (List.mem_cons_of_mem _ hq) t ht).2.2
        cases hsp : splitSkipEmpty '!' (ops.toString t) with
        | nil => simp [hsp] at hs
        | cons f rest => simp [hasField0, hsp]
    have hload := loadLines_scriptPhases ops (saveLines ops (p :: ps)) hall
    have hseg := segments_saveLines ops p ps (fun ph hph t ht => (hline ph hph t ht).2.1)
    have hph : scriptPhases ops (saveLines ops (p :: ps)) =
        (p :: ps).map (fun q =>
          q.map (fun t => ops.fromString (ops.create (kindOf t)) (ops.toString t))) := by
      rw [scriptPhases, hseg, List.map_map]
      apply List.map_congr_left
      intro q hq
      exact segmentTemplates_serialized ops kindOf q (hkind q hq)
    refine ⟨reset gops { g0 with m_phaseAgents := scriptPhases ops (saveLines ops (p :: ps)) },
      ?_, ?_, ?_, ?_⟩
    · rw [hr, hP, load, hload]
      rfl
    · simp [reset, hph]
    · simp only [reset, hph, List.map_map]
      apply List.map_congr_left
      intro q _
      simp
    · simp only [reset, hph, List.map_map]
      apply List.map_congr_left
      intro q _
      simp only [Function.comp_apply, List.map_map]
      apply List.map_congr_left
      intro t _
      simp [hfrom, hcreate]

/-- Witness for C16: three phases, the middle one empty, saved and loaded with the toy
agents. -/
theorem save_load_roundtrip_witness :
    ∃ g', load toyOps toyGrid
        (readLines (save toyOps
          (toyGen [[⟨AgentKind.River, 1, 2⟩, ⟨AgentKind.Smooth, 1, 2⟩], [],
            [⟨AgentKind.Beach, 1, 2⟩]])))
        (toyGen []) = some g' ∧
      g'.m_phaseAgents.length =
        (toyGen [[⟨AgentKind.River, 1, 2⟩, ⟨AgentKind.Smooth, 1, 2⟩], [],
          [⟨AgentKind.Beach, 1, 2⟩]]).m_phaseAgents.length ∧
      g'.m_phaseAgents.map List.length =
        (toyGen [[⟨AgentKind.River, 1, 2⟩, ⟨AgentKind.Smooth, 1, 2⟩], [],
          [⟨AgentKind.Beach, 1, 2⟩]]).m_phaseAgents.map List.length ∧
      g'.m_phaseAgents.map (List.map ToyAgent.kind) =
        (toyGen [[⟨AgentKind.River, 1, 2⟩, ⟨AgentKind.Smooth, 1, 2⟩], [],
          [⟨AgentKind.Beach, 1, 2⟩]]).m_phaseAgents.map (List.map ToyAgent.kind) :=
  save_load_roundtrip toyOps toyGrid ToyAgent.kind
    (toyGen [[⟨AgentKind.River, 1, 2⟩, ⟨AgentKind.Smooth, 1, 2⟩], [],
      [⟨AgentKind.Beach, 1, 2⟩]])
    (toyGen []) (by decide) (by decide) (fun _ => rfl) (fun _ _ => rfl)

end TerrainGen
